import Mathlib

/-!
# PgDecryptor: dual-grammar tag matching and decrypt dispatch

A shallow embedding of `decryptor/postgresql/pg_general_decryptor.go`.

Conventions of the embedding.

* A Go method with a pointer receiver becomes a function from the receiver's
  state to a result and the receiver's new state.
* A run-time panic (index or slice bound out of range, nil dereference) is the
  result `none`.
* The two marker sub-matchers (`base.DataDecryptor`), the key store
  (`keystore.KeyStore`) and the zone matcher (`*zone.ZoneIdMatcher`) are
  collaborators whose code lives outside this file.  Each is a state together
  with a method table; the method tables are arguments of the embedded
  functions, the states are fields of `PgDecryptor`.
* `match_index` is a Go `int` which the code only ever sets to `0` or
  increments right after a bounds-checked write at that very index, so it is a
  natural number not exceeding a slice length; no operation on it can leave
  the 64-bit range.  The difference taken in `ReadData` is computed in `Int`.
* Byte slices are their contents, except for the two places where sharing of
  storage is visible through the decryptor's own operations: the in-place
  `append` in `ReadData`, and the slice kept by `SetPoisonKey`, which may be a
  view of `match_buffer`.
* Calls to `log` are not modelled.
-/

namespace Acra

/-- One octet. -/
abbrev Byte := Fin 256

/-- A Go `[]byte` whose nil-ness is observable: `none` is the nil slice. -/
abbrev GoBytes := Option (List Byte)

/-- A Go `error` value, compared by its message. -/
abbrev GoError := String

/-- The contents of a `keys.PrivateKey`. -/
abbrev PrivateKey := List Byte

/-- A `*base.PoisonCallbackStorage`, identified by its address. -/
abbrev PoisonCallbackStorage := Nat

/-- A `[]byte` that a caller hands to the decryptor and that the decryptor
keeps without copying it, told apart by where its storage lies: the nil slice,
a slice with storage of its own, which no code of the decryptor writes to, or
the part `match_buffer[lo:hi]` of the decryptor's match buffer, which is what
`GetMatched` hands out (and any re-slice of it). -/
inductive ByteSlice where
  | nil
  | own (bytes : List Byte)
  | ofMatchBuffer (lo hi : Nat)
  deriving DecidableEq, Repr

/-- The bytes seen through a slice while the match buffer holds `buf`. -/
def ByteSlice.bytes (buf : List Byte) : ByteSlice → GoBytes
  | ByteSlice.nil => none
  | ByteSlice.own bs => some bs
  | ByteSlice.ofMatchBuffer lo hi => some ((buf.drop lo).take (hi - lo))

/-- Whether a slice shares its storage with the match buffer. -/
def ByteSlice.sharesMatchBuffer : ByteSlice → Bool
  | ByteSlice.ofMatchBuffer _ _ => true
  | _ => false

/-- The method table of a `base.DataDecryptor` whose receiver state is `σ` and
which reads from an `io.Reader` of state `ρ`. -/
structure DataDecryptor (σ ρ : Type) where
  MatchBeginTag : σ → Byte → Bool × σ
  IsMatched : σ → Bool
  Reset : σ → σ
  GetMatched : σ → List Byte
  ReadSymmetricKey : σ → Option PrivateKey → ρ → (List Byte × List Byte × Option GoError) × σ × ρ
  ReadData : σ → List Byte → GoBytes → ρ → (List Byte × Option GoError) × σ × ρ

/-- The method table of a `keystore.KeyStore` whose state is `κ`. -/
structure KeyStore (κ : Type) where
  GetZonePrivateKey : κ → GoBytes → (Option PrivateKey × Option GoError) × κ
  GetServerPrivateKey : κ → GoBytes → (Option PrivateKey × Option GoError) × κ
  HasZonePrivateKey : κ → GoBytes → Bool

/-- The method table of a `zone.ZoneIdMatcher` whose state is `ζ`. -/
structure ZoneIdMatcher (ζ : Type) where
  Match : ζ → Byte → Bool × ζ
  IsMatched : ζ → Bool
  GetZoneId : ζ → GoBytes
  Reset : ζ → ζ

/-- Which of the two sub-matchers `matched_decryptor` points at. -/
inductive Matcher where
  | binary
  | pg
  deriving DecidableEq, Repr

/-- The struct `PgDecryptor`.  `key_store` and `zone_matcher` are nil until
set; `matched_decryptor` is nil or an alias of one of the two sub-matchers. -/
structure PgDecryptor (σp σb κ ζ : Type) where
  is_with_zone : Bool
  key_store : Option κ
  zone_matcher : Option ζ
  pg_decryptor : σp
  binary_decryptor : σb
  matched_decryptor : Option Matcher
  poison_key : ByteSlice
  client_id : GoBytes
  match_buffer : List Byte
  match_index : Nat
  callback_storage : Option PoisonCallbackStorage

section Operations

variable {σp σb ρ κ ζ : Type}

/-- `NewPgDecryptor(client_id, decryptor)`.  The two marker constants
`ESCAPE_TAG_BEGIN`, `base.TAG_BEGIN` and the value of
`binary.NewBinaryDecryptor()` are declared outside the file and are taken as
arguments. -/
def NewPgDecryptor (ESCAPE_TAG_BEGIN TAG_BEGIN : List Byte) (NewBinaryDecryptor : σb)
    (client_id : GoBytes) (decryptor : σp) : PgDecryptor σp σb κ ζ :=
  { is_with_zone := false
    key_store := none
    zone_matcher := none
    pg_decryptor := decryptor
    binary_decryptor := NewBinaryDecryptor
    matched_decryptor := none
    poison_key := ByteSlice.nil
    client_id := client_id
    match_buffer := List.replicate (ESCAPE_TAG_BEGIN.length + TAG_BEGIN.length) 0
    match_index := 0
    callback_storage := none }

/-- `SetPoisonKey`: the caller's slice is stored as it is, not a copy of it. -/
def SetPoisonKey (d : PgDecryptor σp σb κ ζ) (key : ByteSlice) : PgDecryptor σp σb κ ζ :=
  { d with poison_key := key }

/-- `GetPoisonKey`: the stored slice, as its bytes read at the time of the
call. -/
def GetPoisonKey (d : PgDecryptor σp σb κ ζ) : GoBytes :=
  ByteSlice.bytes d.match_buffer d.poison_key

/-- `SetWithZone`. -/
def SetWithZone (d : PgDecryptor σp σb κ ζ) (b : Bool) : PgDecryptor σp σb κ ζ :=
  { d with is_with_zone := b }

/-- `SetZoneMatcher`. -/
def SetZoneMatcher (d : PgDecryptor σp σb κ ζ) (zone_matcher : Option ζ) :
    PgDecryptor σp σb κ ζ :=
  { d with zone_matcher := zone_matcher }

/-- `SetKeyStore`. -/
def SetKeyStore (d : PgDecryptor σp σb κ ζ) (store : Option κ) : PgDecryptor σp σb κ ζ :=
  { d with key_store := store }

/-- `IsWithZone`. -/
def IsWithZone (d : PgDecryptor σp σb κ ζ) : Bool :=
  d.is_with_zone

/-- `GetMatchedZoneId`: the zone matcher's id in zone mode, nil otherwise.
Dereferencing a nil zone matcher panics. -/
def GetMatchedZoneId (zm : ZoneIdMatcher ζ) (d : PgDecryptor σp σb κ ζ) : Option GoBytes :=
  if IsWithZone d then
    match d.zone_matcher with
    | none => none
    | some z => some (zm.GetZoneId z)
  else
    some none

/-- `MatchZone`.  Dereferencing a nil zone matcher panics. -/
def MatchZone (zm : ZoneIdMatcher ζ) (d : PgDecryptor σp σb κ ζ) (b : Byte) :
    Option (Bool × PgDecryptor σp σb κ ζ) :=
  match d.zone_matcher with
  | none => none
  | some z => some ((zm.Match z b).1, { d with zone_matcher := some (zm.Match z b).2 })

/-- `ResetZoneMatch`. -/
def ResetZoneMatch (zm : ZoneIdMatcher ζ) (d : PgDecryptor σp σb κ ζ) : PgDecryptor σp σb κ ζ :=
  match d.zone_matcher with
  | some z => { d with zone_matcher := some (zm.Reset z) }
  | none => d

/-- `MatchBeginTag`: both sub-matchers are offered `char`; the byte is stored
when one of them took it.  The store panics when `match_index` is not an index
of `match_buffer`. -/
def MatchBeginTag (Mp : DataDecryptor σp ρ) (Mb : DataDecryptor σb ρ)
    (d : PgDecryptor σp σb κ ζ) (char : Byte) : Option (Bool × PgDecryptor σp σb κ ζ) :=
  let r1 := Mp.MatchBeginTag d.pg_decryptor char
  let r2 := Mb.MatchBeginTag d.binary_decryptor char
  let matched := r2.1 || r1.1
  let d1 := { d with pg_decryptor := r1.2, binary_decryptor := r2.2 }
  if matched then
    if d.match_index < d.match_buffer.length then
      some (matched, { d1 with match_buffer := d.match_buffer.set d.match_index char
                               match_index := d.match_index + 1 })
    else
      none
  else
    some (matched, d1)

/-- `IsMatched`. -/
def IsMatched (Mp : DataDecryptor σp ρ) (Mb : DataDecryptor σb ρ)
    (d : PgDecryptor σp σb κ ζ) : Bool × PgDecryptor σp σb κ ζ :=
  if Mb.IsMatched d.binary_decryptor then
    (true, { d with matched_decryptor := some Matcher.binary })
  else if Mp.IsMatched d.pg_decryptor then
    (true, { d with matched_decryptor := some Matcher.pg })
  else
    (false, { d with matched_decryptor := none })

/-- `Reset`. -/
def Reset (Mp : DataDecryptor σp ρ) (Mb : DataDecryptor σb ρ)
    (d : PgDecryptor σp σb κ ζ) : PgDecryptor σp σb κ ζ :=
  { d with matched_decryptor := none
           binary_decryptor := Mb.Reset d.binary_decryptor
           pg_decryptor := Mp.Reset d.pg_decryptor
           match_index := 0 }

/-- `GetMatched`: the slice `match_buffer[:match_index]`, which panics when
`match_index` exceeds the capacity. -/
def GetMatched (d : PgDecryptor σp σb κ ζ) : Option (List Byte) :=
  if d.match_index ≤ d.match_buffer.length then
    some (d.match_buffer.take d.match_index)
  else
    none

/-- `GetMatched` once more, as the slice it hands out rather than as the bytes
in it: a view of `match_buffer` that shares its storage. -/
def GetMatchedSlice (d : PgDecryptor σp σb κ ζ) : Option ByteSlice :=
  if d.match_index ≤ d.match_buffer.length then
    some (ByteSlice.ofMatchBuffer 0 d.match_index)
  else
    none

/-- The call `decryptor.matched_decryptor.GetMatched()` with `matched_decryptor`
pointing at `m`. -/
def matchedGetMatched (Mp : DataDecryptor σp ρ) (Mb : DataDecryptor σb ρ)
    (d : PgDecryptor σp σb κ ζ) (m : Matcher) : List Byte :=
  match m with
  | Matcher.binary => Mb.GetMatched d.binary_decryptor
  | Matcher.pg => Mp.GetMatched d.pg_decryptor

/-- The call `decryptor.matched_decryptor.ReadData(symmetric_key, zone_id, reader)`
with `matched_decryptor` pointing at `m`: the aliased sub-matcher and the reader
move on. -/
def matchedReadData (Mp : DataDecryptor σp ρ) (Mb : DataDecryptor σb ρ)
    (d : PgDecryptor σp σb κ ζ) (m : Matcher) (symmetric_key : List Byte) (zone_id : GoBytes)
    (reader : ρ) : (List Byte × Option GoError) × PgDecryptor σp σb κ ζ × ρ :=
  match m with
  | Matcher.binary =>
    let r := Mb.ReadData d.binary_decryptor symmetric_key zone_id reader
    (r.1, { d with binary_decryptor := r.2.1 }, r.2.2)
  | Matcher.pg =>
    let r := Mp.ReadData d.pg_decryptor symmetric_key zone_id reader
    (r.1, { d with pg_decryptor := r.2.1 }, r.2.2)

/-- Go's `append(buf[:k], extra...)` for a slice `buf` whose length is its
capacity: the bytes of the result, and the backing array of `buf` afterwards.
When the result fits the capacity it is written in place over `buf`; otherwise
a fresh array is allocated and `buf` is untouched.  Slicing beyond the capacity
panics. -/
def appendToSlice (buf : List Byte) (k : Nat) (extra : List Byte) :
    Option (List Byte × List Byte) :=
  if k ≤ buf.length then
    if k + extra.length ≤ buf.length then
      some (buf.take k ++ extra, buf.take k ++ extra ++ buf.drop (k + extra.length))
    else
      some (buf.take k ++ extra, buf)
  else
    none

/-- `ReadData`.  A nil `matched_decryptor` panics. -/
def ReadData (Mp : DataDecryptor σp ρ) (Mb : DataDecryptor σb ρ)
    (d : PgDecryptor σp σb κ ζ) (symmetric_key : List Byte) (zone_id : GoBytes) (reader : ρ) :
    Option ((List Byte × Option GoError) × PgDecryptor σp σb κ ζ × ρ) :=
  match d.matched_decryptor with
  | none => none
  | some m =>
    let correct_match_begin_tag_length : Int := (matchedGetMatched Mp Mb d m).length
    let false_buffered_begin_tag_length : Int :=
      (d.match_index : Int) - correct_match_begin_tag_length
    if false_buffered_begin_tag_length > 0 then
      let r := matchedReadData Mp Mb d m symmetric_key zone_id reader
      match appendToSlice r.2.1.match_buffer false_buffered_begin_tag_length.toNat r.1.1 with
      | none => none
      | some (out, buf) => some ((out, r.1.2), { r.2.1 with match_buffer := buf }, r.2.2)
    else
      some (matchedReadData Mp Mb d m symmetric_key zone_id reader)

/-- `ReadSymmetricKey`.  A nil `matched_decryptor` panics. -/
def ReadSymmetricKey (Mp : DataDecryptor σp ρ) (Mb : DataDecryptor σb ρ)
    (d : PgDecryptor σp σb κ ζ) (private_key : Option PrivateKey) (reader : ρ) :
    Option ((List Byte × List Byte × Option GoError) × PgDecryptor σp σb κ ζ × ρ) :=
  match d.matched_decryptor with
  | none => none
  | some Matcher.binary =>
    let r := Mb.ReadSymmetricKey d.binary_decryptor private_key reader
    some (r.1, { d with binary_decryptor := r.2.1 }, r.2.2)
  | some Matcher.pg =>
    let r := Mp.ReadSymmetricKey d.pg_decryptor private_key reader
    some (r.1, { d with pg_decryptor := r.2.1 }, r.2.2)

/-- `GetPrivateKey`.  A nil key store panics, and so does a nil zone matcher
in zone mode. -/
def GetPrivateKey (ks : KeyStore κ) (zm : ZoneIdMatcher ζ) (d : PgDecryptor σp σb κ ζ) :
    Option ((Option PrivateKey × Option GoError) × PgDecryptor σp σb κ ζ) :=
  if IsWithZone d then
    match GetMatchedZoneId zm d with
    | none => none
    | some zone_id =>
      match d.key_store with
      | none => none
      | some k =>
        let r := ks.GetZonePrivateKey k zone_id
        some (r.1, { d with key_store := some r.2 })
  else
    match d.key_store with
    | none => none
    | some k =>
      let r := ks.GetServerPrivateKey k d.client_id
      some (r.1, { d with key_store := some r.2 })

/-- `IsMatchedZone`. -/
def IsMatchedZone (ks : KeyStore κ) (zm : ZoneIdMatcher ζ) (d : PgDecryptor σp σb κ ζ) :
    Option Bool :=
  match d.zone_matcher with
  | none => none
  | some z =>
    if zm.IsMatched z then
      match d.key_store with
      | none => none
      | some k => some (ks.HasZonePrivateKey k (zm.GetZoneId z))
    else
      some false

/-- `GetPoisonCallbackStorage`. -/
def GetPoisonCallbackStorage (d : PgDecryptor σp σb κ ζ) : Option PoisonCallbackStorage :=
  d.callback_storage

/-- `SetPoisonCallbackStorage`. -/
def SetPoisonCallbackStorage (d : PgDecryptor σp σb κ ζ)
    (storage : Option PoisonCallbackStorage) : PgDecryptor σp σb κ ζ :=
  { d with callback_storage := storage }

end Operations

/-! ## Test doubles for the collaborators -/

/-- Modelled from the spec: the concrete marker sub-matchers are not part of
the file.  This is the byte-at-a-time automaton of spec §6 and §8 for one fixed
marker `tag`: its state is the number of marker bytes taken so far, a byte is
accepted when it is the next marker byte, the match is complete when the whole
marker was taken, and `matched_bytes` is the part of the marker taken.  Its
`decrypt` hands back the unread rest of the reader, or fails on an empty
reader. -/
def tagMatcher (tag : List Byte) : DataDecryptor Nat (List Byte) :=
  { MatchBeginTag := fun i c => if tag[i]? = some c then (true, i + 1) else (false, i)
    IsMatched := fun i => decide (i = tag.length)
    Reset := fun _ => 0
    GetMatched := fun i => tag.take i
    ReadSymmetricKey := fun i _ r => ((r.take 1, r.drop 1, none), i, r.drop 1)
    ReadData := fun i _ _ r =>
      match r with
      | [] => (([], some "unexpected EOF"), i, [])
      | _ :: _ => ((r, none), i, []) }

/-- The state of `tableKeyStore`: the tenant keys and the client keys. -/
abbrev KeyTables := List (GoBytes × PrivateKey) × List (GoBytes × PrivateKey)

/-- Modelled from the spec: a key store (spec §6) holding one table of tenant
keys and one table of client keys; a lookup of an absent id fails. -/
def tableKeyStore : KeyStore KeyTables :=
  { GetZonePrivateKey := fun k id =>
      match k.1.lookup id with
      | some key => ((some key, none), k)
      | none => ((none, some "no zone key"), k)
    GetServerPrivateKey := fun k id =>
      match k.2.lookup id with
      | some key => ((some key, none), k)
      | none => ((none, some "no server key"), k)
    HasZonePrivateKey := fun k id => (k.1.lookup id).isSome }

/-- Modelled from the spec: a zone matcher (spec §3, `ZoneMatchState`) reduced
to its two observations, the matched flag and the current tenant id. -/
def flagZoneMatcher : ZoneIdMatcher (Bool × GoBytes) :=
  { Match := fun z _ => (z.1, z)
    IsMatched := fun z => z.1
    GetZoneId := fun z => z.2
    Reset := fun _ => (false, some []) }

/-- A decryptor over the test doubles. -/
abbrev TestDecryptor := PgDecryptor Nat Nat KeyTables (Bool × GoBytes)

/-- A decryptor over two `tagMatcher`s in which the escaped sub-matcher holds a
complete two-byte match while three bytes are buffered. -/
def spuriousState : TestDecryptor :=
  { is_with_zone := false
    key_store := some ([], [(some [1], [7, 7])])
    zone_matcher := none
    pg_decryptor := 2
    binary_decryptor := 1
    matched_decryptor := some Matcher.pg
    poison_key := ByteSlice.nil
    client_id := some [1]
    match_buffer := [66, 69, 66, 0]
    match_index := 3
    callback_storage := none }

/-- A decryptor over two `tagMatcher`s in which the binary sub-matcher holds a
complete two-byte match and exactly those two bytes are buffered. -/
def cleanBinaryState : TestDecryptor :=
  { spuriousState with
    pg_decryptor := 0
    binary_decryptor := 2
    matched_decryptor := some Matcher.binary
    match_buffer := [66, 88, 0, 0]
    match_index := 2 }

/-- A decryptor in zone mode whose zone matcher reports no match and holds the
empty tenant id, over a key store that has a tenant key filed under the empty
id and a client key for the client `[1]`. -/
def zoneUnmatchedState : TestDecryptor :=
  { is_with_zone := true
    key_store := some ([(some [], [9, 9])], [(some [1], [7, 7])])
    zone_matcher := some (false, some [])
    pg_decryptor := 0
    binary_decryptor := 0
    matched_decryptor := none
    poison_key := ByteSlice.nil
    client_id := some [1]
    match_buffer := [0, 0, 0, 0]
    match_index := 0
    callback_storage := none }

/-- A decryptor in zone mode whose zone matcher holds the matched tenant id
`[4]`, over a key store with no key for that tenant but with a client key for
the client `[1]`. -/
def zoneMatchedState : TestDecryptor :=
  { zoneUnmatchedState with zone_matcher := some (true, some [4]) }

/-- The state `spuriousState` after `SetPoisonKey` with the key `[13]` and
`SetPoisonCallbackStorage` with the registry at address 1. -/
def poisonedState : TestDecryptor :=
  SetPoisonCallbackStorage (SetPoisonKey spuriousState (ByteSlice.own [13])) (some 1)

/-! ## Spec-side definitions -/

/-- The precedence order of spec §4.1 (`resolve_match`), as a function of the
two completed-match flags: binary first, then escaped, then nobody. -/
def resolve_match (binary_matched pg_matched : Bool) : Option Matcher :=
  if binary_matched then some Matcher.binary
  else if pg_matched then some Matcher.pg
  else none

/-- Feeding a sequence of bytes through `MatchBeginTag`, one call per byte,
with no `Reset` in between; `none` when one of the calls panics. -/
def feedBytes {σp σb ρ κ ζ : Type} (Mp : DataDecryptor σp ρ) (Mb : DataDecryptor σb ρ)
    (d : PgDecryptor σp σb κ ζ) : List Byte → Option (PgDecryptor σp σb κ ζ)
  | [] => some d
  | b :: bs =>
    match MatchBeginTag Mp Mb d b with
    | none => none
    | some r => feedBytes Mp Mb r.2 bs

/-- The number of bytes of a sequence that one sub-matcher accepts when the
sequence is presented to it byte by byte from the state `st`. -/
def acceptedCount {σ ρ : Type} (M : DataDecryptor σ ρ) (st : σ) : List Byte → Nat
  | [] => 0
  | b :: bs =>
    (if (M.MatchBeginTag st b).1 then 1 else 0) + acceptedCount M (M.MatchBeginTag st b).2 bs

/-- The subsequence, in feeding order, of the bytes accepted by at least one of
the two sub-matchers when every byte is presented to both of them, starting
from the states `sp` and `sb`. -/
def acceptedBytes {σp σb ρ : Type} (Mp : DataDecryptor σp ρ) (Mb : DataDecryptor σb ρ)
    (sp : σp) (sb : σb) : List Byte → List Byte
  | [] => []
  | b :: bs =>
    (if (Mp.MatchBeginTag sp b).1 || (Mb.MatchBeginTag sb b).1 then [b] else [])
      ++ acceptedBytes Mp Mb (Mp.MatchBeginTag sp b).2 (Mb.MatchBeginTag sb b).2 bs

/-- One call made on the decryptor while it looks for a marker. -/
inductive Call where
  | MatchBeginTag (b : Byte)
  | IsMatched
  | Reset

/-- Making a sequence of `MatchBeginTag`, `IsMatched` and `Reset` calls on the
decryptor, one after the other; `none` when one of them panics. -/
def runCalls {σp σb ρ κ ζ : Type} (Mp : DataDecryptor σp ρ) (Mb : DataDecryptor σb ρ)
    (d : PgDecryptor σp σb κ ζ) : List Call → Option (PgDecryptor σp σb κ ζ)
  | [] => some d
  | Call.MatchBeginTag b :: cs =>
    match MatchBeginTag Mp Mb d b with
    | none => none
    | some r => runCalls Mp Mb r.2 cs
  | Call.IsMatched :: cs => runCalls Mp Mb (IsMatched Mp Mb d).2 cs
  | Call.Reset :: cs => runCalls Mp Mb (Reset Mp Mb d) cs

/-- What one sub-matcher goes through during a sequence of calls on the
decryptor: it is offered every byte, reset at every `Reset` and left alone by
`IsMatched`.  The result is its state and the number of bytes it accepted
since its last reset, starting from the state `st` with `n` bytes accepted. -/
def subRun {σ ρ : Type} (M : DataDecryptor σ ρ) (st : σ) (n : Nat) : List Call → σ × Nat
  | [] => (st, n)
  | Call.MatchBeginTag b :: cs =>
    subRun M (M.MatchBeginTag st b).2 (n + if (M.MatchBeginTag st b).1 then 1 else 0) cs
  | Call.IsMatched :: cs => subRun M st n cs
  | Call.Reset :: cs => subRun M (M.Reset st) 0 cs

/-- The state that differs from `d` in the poison key and the callback
registry only, which are set to `key` and `storage`. -/
def withPoison {σp σb κ ζ : Type} (d : PgDecryptor σp σb κ ζ) (key : ByteSlice)
    (storage : Option PoisonCallbackStorage) : PgDecryptor σp σb κ ζ :=
  SetPoisonCallbackStorage (SetPoisonKey d key) storage

/-! ## Theorems -/

section Theorems

variable {σp σb ρ κ ζ : Type}

/-- The sub-matcher's `ReadData` never touches `match_buffer` or `match_index`. -/
theorem matchedReadData_buffer (Mp : DataDecryptor σp ρ) (Mb : DataDecryptor σb ρ)
    (d : PgDecryptor σp σb κ ζ) (m : Matcher) (key : List Byte) (zone : GoBytes) (reader : ρ) :
    (matchedReadData Mp Mb d m key zone reader).2.1.match_buffer = d.match_buffer ∧
    (matchedReadData Mp Mb d m key zone reader).2.1.match_index = d.match_index := by
  cases m <;> exact ⟨rfl, rfl⟩

/-- The test state `spuriousState` is the one a fresh decryptor with a key
store reaches when it is fed `B`, `E`, `B` and then asked `IsMatched`. -/
theorem spuriousState_reachable :
    (feedBytes (tagMatcher [69, 66]) (tagMatcher [66, 88])
        (SetKeyStore (NewPgDecryptor [69, 66] [66, 88] 0 (some [1]) 0)
          (some ([], [(some [1], [7, 7])])))
        [66, 69, 66]).map (IsMatched (tagMatcher [69, 66]) (tagMatcher [66, 88]))
      = some (true, spuriousState) :=
  rfl

/-- The bytes `ReadData` returns, in terms of the dispatched calls: in a
resolved state whose winner reports no more matched bytes than are buffered,
they are the first `match_index - w` buffered bytes followed by what the
dispatched `ReadData` returned. -/
theorem ReadData_output (Mp : DataDecryptor σp ρ) (Mb : DataDecryptor σb ρ)
    (d : PgDecryptor σp σb κ ζ) (m : Matcher) (key : List Byte) (zone : GoBytes) (reader : ρ)
    (hres : d.matched_decryptor = some m)
    (hw : (matchedGetMatched Mp Mb d m).length ≤ d.match_index)
    (hcap : d.match_index - (matchedGetMatched Mp Mb d m).length ≤ d.match_buffer.length) :
    ∃ o, ReadData Mp Mb d key zone reader = some o ∧
      o.1.1 = d.match_buffer.take (d.match_index - (matchedGetMatched Mp Mb d m).length)
                ++ (matchedReadData Mp Mb d m key zone reader).1.1 := by
  have hbuf := (matchedReadData_buffer Mp Mb d m key zone reader).1
  unfold ReadData
  rw [hres]
  by_cases hk : ((d.match_index : Int) - ((matchedGetMatched Mp Mb d m).length : Int)) > 0
  · have htn : ((d.match_index : Int) - ((matchedGetMatched Mp Mb d m).length : Int)).toNat
        = d.match_index - (matchedGetMatched Mp Mb d m).length := by omega
    simp only [hk, if_true, htn, hbuf, appendToSlice, hcap]
    split_ifs <;> exact ⟨_, rfl, rfl⟩
  · have h0 : d.match_index - (matchedGetMatched Mp Mb d m).length = 0 := by omega
    simp only [hk, if_false, h0, List.take_zero, List.nil_append]
    exact ⟨_, rfl, rfl⟩

/-- C1. Reconciliation law of `ReadData`, for either winner.  In a resolved
state let `w` be the length of the winning sub-matcher's own `GetMatched()` and
`decrypted` the bytes the winning sub-matcher's own `ReadData` returns for the
given key, zone id and reader.  If `w ≤ match_index` and
`match_buffer[0..match_index - w]` is a slice of the buffer, `ReadData` returns
exactly `match_buffer[0..match_index - w]` followed by `decrypted`; when
`match_index = w` the output is `decrypted` itself. -/
theorem ReadData_reconciliation (Mp : DataDecryptor σp ρ) (Mb : DataDecryptor σb ρ)
    (d : PgDecryptor σp σb κ ζ) (key : List Byte) (zone : GoBytes) (reader : ρ) :
    (d.matched_decryptor = some Matcher.binary →
      (Mb.GetMatched d.binary_decryptor).length ≤ d.match_index →
      d.match_index - (Mb.GetMatched d.binary_decryptor).length ≤ d.match_buffer.length →
      ∃ o, ReadData Mp Mb d key zone reader = some o ∧
        o.1.1 = d.match_buffer.take (d.match_index - (Mb.GetMatched d.binary_decryptor).length)
                  ++ (Mb.ReadData d.binary_decryptor key zone reader).1.1 ∧
        (d.match_index = (Mb.GetMatched d.binary_decryptor).length →
          o.1.1 = (Mb.ReadData d.binary_decryptor key zone reader).1.1)) ∧
    (d.matched_decryptor = some Matcher.pg →
      (Mp.GetMatched d.pg_decryptor).length ≤ d.match_index →
      d.match_index - (Mp.GetMatched d.pg_decryptor).length ≤ d.match_buffer.length →
      ∃ o, ReadData Mp Mb d key zone reader = some o ∧
        o.1.1 = d.match_buffer.take (d.match_index - (Mp.GetMatched d.pg_decryptor).length)
                  ++ (Mp.ReadData d.pg_decryptor key zone reader).1.1 ∧
        (d.match_index = (Mp.GetMatched d.pg_decryptor).length →
          o.1.1 = (Mp.ReadData d.pg_decryptor key zone reader).1.1)) := by
  constructor
  · intro hres hw hcap
    obtain ⟨o, ho, hout⟩ := ReadData_output Mp Mb d Matcher.binary key zone reader hres hw hcap
    have hout' : o.1.1
        = d.match_buffer.take (d.match_index - (Mb.GetMatched d.binary_decryptor).length)
            ++ (Mb.ReadData d.binary_decryptor key zone reader).1.1 := hout
    refine ⟨o, ho, hout', fun heq => ?_⟩
    rw [hout', heq, Nat.sub_self, List.take_zero, List.nil_append]
  · intro hres hw hcap
    obtain ⟨o, ho, hout⟩ := ReadData_output Mp Mb d Matcher.pg key zone reader hres hw hcap
    have hout' : o.1.1
        = d.match_buffer.take (d.match_index - (Mp.GetMatched d.pg_decryptor).length)
            ++ (Mp.ReadData d.pg_decryptor key zone reader).1.1 := hout
    refine ⟨o, ho, hout', fun heq => ?_⟩
    rw [hout', heq, Nat.sub_self, List.take_zero, List.nil_append]

/-- Witness of C1.  In `spuriousState` the escaped sub-matcher won with two
bytes out of three buffered ones, so one byte is put in front of the bytes it
decrypted; in `cleanBinaryState` the binary sub-matcher won with both buffered
bytes, so the bytes it decrypted come back alone. -/
theorem ReadData_reconciliation_witness :
    (∃ o, ReadData (tagMatcher [69, 66]) (tagMatcher [66, 88]) spuriousState [] none [5, 6]
        = some o ∧
      o.1.1 = [66] ++ ((tagMatcher [69, 66]).ReadData spuriousState.pg_decryptor [] none
        [5, 6]).1.1 ∧
      o.1.1 = [66, 5, 6]) ∧
    (∃ o, ReadData (tagMatcher [69, 66]) (tagMatcher [66, 88]) cleanBinaryState [] none [5, 6]
        = some o ∧
      o.1.1 = ((tagMatcher [66, 88]).ReadData cleanBinaryState.binary_decryptor [] none
        [5, 6]).1.1 ∧
      o.1.1 = [5, 6]) := by
  constructor
  · obtain ⟨o, ho, hout, _⟩ := (ReadData_reconciliation (tagMatcher [69, 66])
      (tagMatcher [66, 88]) spuriousState [] none [5, 6]).2 rfl (by decide) (by decide)
    exact ⟨o, ho, hout, hout⟩
  · obtain ⟨o, ho, _, hself⟩ := (ReadData_reconciliation (tagMatcher [69, 66])
      (tagMatcher [66, 88]) cleanBinaryState [] none [5, 6]).1 rfl (by decide) (by decide)
    exact ⟨o, ho, hself rfl, hself rfl⟩

/-- C2. Match resolution in `IsMatched` follows the fixed precedence: the
winner stored in `matched_decryptor` is `resolve_match` of the two
sub-matchers' matched flags, which is binary whenever binary matched (also when
escaped matched too), else escaped when escaped matched, else nobody; and
asking again gives the same answer and state. -/
theorem IsMatched_precedence (Mp : DataDecryptor σp ρ) (Mb : DataDecryptor σb ρ)
    (d : PgDecryptor σp σb κ ζ) :
    (IsMatched Mp Mb d).2.matched_decryptor
        = resolve_match (Mb.IsMatched d.binary_decryptor) (Mp.IsMatched d.pg_decryptor) ∧
    (∀ pg_matched, resolve_match true pg_matched = some Matcher.binary) ∧
    resolve_match false true = some Matcher.pg ∧
    resolve_match false false = none ∧
    IsMatched Mp Mb (IsMatched Mp Mb d).2 = IsMatched Mp Mb d := by
  refine ⟨?_, fun _ => rfl, rfl, rfl, ?_⟩
  · unfold IsMatched resolve_match
    split_ifs <;> rfl
  · unfold IsMatched
    split_ifs <;> simp_all

/-- Storing at position `i` and then taking `i + 1` elements. -/
theorem take_succ_set {α : Type} (l : List α) (i : Nat) (a : α) (h : i < l.length) :
    (l.set i a).take (i + 1) = l.take i ++ [a] := by
  induction l generalizing i with
  | nil => simp at h
  | cons x xs ih =>
    cases i with
    | zero => simp
    | succ j =>
      have hj : j < xs.length := by simpa using h
      simp [ih j hj]

/-- One call of `MatchBeginTag` in which no sub-matcher accepts. -/
theorem MatchBeginTag_of_rejected (Mp : DataDecryptor σp ρ) (Mb : DataDecryptor σb ρ)
    (d : PgDecryptor σp σb κ ζ) (b : Byte)
    (h : ((Mb.MatchBeginTag d.binary_decryptor b).1 || (Mp.MatchBeginTag d.pg_decryptor b).1)
          = false) :
    MatchBeginTag Mp Mb d b = some (false,
      { d with pg_decryptor := (Mp.MatchBeginTag d.pg_decryptor b).2
               binary_decryptor := (Mb.MatchBeginTag d.binary_decryptor b).2 }) := by
  simp [MatchBeginTag, h]

/-- One call of `MatchBeginTag` in which a sub-matcher accepts and the buffer
has room. -/
theorem MatchBeginTag_of_accepted (Mp : DataDecryptor σp ρ) (Mb : DataDecryptor σb ρ)
    (d : PgDecryptor σp σb κ ζ) (b : Byte)
    (h : ((Mb.MatchBeginTag d.binary_decryptor b).1 || (Mp.MatchBeginTag d.pg_decryptor b).1)
          = true)
    (hidx : d.match_index < d.match_buffer.length) :
    MatchBeginTag Mp Mb d b = some (true,
      { d with pg_decryptor := (Mp.MatchBeginTag d.pg_decryptor b).2
               binary_decryptor := (Mb.MatchBeginTag d.binary_decryptor b).2
               match_buffer := d.match_buffer.set d.match_index b
               match_index := d.match_index + 1 }) := by
  simp [MatchBeginTag, h, hidx]

/-- One call of `MatchBeginTag` in which a sub-matcher accepts and the buffer
is full: the store is out of range. -/
theorem MatchBeginTag_of_full (Mp : DataDecryptor σp ρ) (Mb : DataDecryptor σb ρ)
    (d : PgDecryptor σp σb κ ζ) (b : Byte)
    (h : ((Mb.MatchBeginTag d.binary_decryptor b).1 || (Mp.MatchBeginTag d.pg_decryptor b).1)
          = true)
    (hidx : ¬ d.match_index < d.match_buffer.length) :
    MatchBeginTag Mp Mb d b = none := by
  simp [MatchBeginTag, h, hidx]

/-- C4. One step of `MatchBeginTag`, in a state where an accepted byte has room
in the buffer: each sub-matcher is advanced with the byte exactly once, whatever
the other one answered; the result is true iff at least one of them accepted;
if it is true the byte is stored at `match_buffer[match_index]` and
`match_index` grows by one; if it is false `match_buffer` and `match_index` are
unchanged. -/
theorem MatchBeginTag_step (Mp : DataDecryptor σp ρ) (Mb : DataDecryptor σb ρ)
    (d : PgDecryptor σp σb κ ζ) (b : Byte)
    (hroom : (Mp.MatchBeginTag d.pg_decryptor b).1 = true ∨
        (Mb.MatchBeginTag d.binary_decryptor b).1 = true →
      d.match_index < d.match_buffer.length) :
    ∃ r d', MatchBeginTag Mp Mb d b = some (r, d') ∧
      d'.pg_decryptor = (Mp.MatchBeginTag d.pg_decryptor b).2 ∧
      d'.binary_decryptor = (Mb.MatchBeginTag d.binary_decryptor b).2 ∧
      (r = true ↔ (Mp.MatchBeginTag d.pg_decryptor b).1 = true ∨
        (Mb.MatchBeginTag d.binary_decryptor b).1 = true) ∧
      (r = true → d'.match_buffer = d.match_buffer.set d.match_index b ∧
        d'.match_buffer[d.match_index]? = some b ∧
        d'.match_index = d.match_index + 1) ∧
      (r = false → d'.match_buffer = d.match_buffer ∧ d'.match_index = d.match_index) := by
  by_cases h : ((Mb.MatchBeginTag d.binary_decryptor b).1 ||
      (Mp.MatchBeginTag d.pg_decryptor b).1) = true
  · have hor : (Mp.MatchBeginTag d.pg_decryptor b).1 = true ∨
        (Mb.MatchBeginTag d.binary_decryptor b).1 = true := by
      rcases Bool.or_eq_true_iff.mp h with h1 | h1
      · exact Or.inr h1
      · exact Or.inl h1
    have hidx := hroom hor
    refine ⟨true, _, MatchBeginTag_of_accepted Mp Mb d b h hidx, rfl, rfl, ?_, ?_, ?_⟩
    · exact ⟨fun _ => hor, fun _ => rfl⟩
    · intro _
      exact ⟨rfl, by simp [List.getElem?_set_self hidx], rfl⟩
    · intro hf
      exact absurd hf (by decide)
  · have hfalse : ((Mb.MatchBeginTag d.binary_decryptor b).1 ||
        (Mp.MatchBeginTag d.pg_decryptor b).1) = false := by
      simpa using h
    have hnone : ¬ ((Mp.MatchBeginTag d.pg_decryptor b).1 = true ∨
        (Mb.MatchBeginTag d.binary_decryptor b).1 = true) := by
      intro hor
      apply h
      rcases hor with h1 | h1
      · simp [h1]
      · simp [h1]
    refine ⟨false, _, MatchBeginTag_of_rejected Mp Mb d b hfalse, rfl, rfl, ?_, ?_, ?_⟩
    · exact ⟨fun hf => absurd hf (by decide), fun hor => absurd hor hnone⟩
    · intro hf
      exact absurd hf (by decide)
    · intro _
      exact ⟨rfl, rfl⟩

/-- Feeding a sequence whose accepted bytes fit the free part of the buffer
never panics, appends exactly the accepted bytes to the buffered ones and keeps
the capacity. -/
theorem feedBytes_spec (Mp : DataDecryptor σp ρ) (Mb : DataDecryptor σb ρ) (bs : List Byte) :
    ∀ d : PgDecryptor σp σb κ ζ,
      d.match_index + (acceptedBytes Mp Mb d.pg_decryptor d.binary_decryptor bs).length
        ≤ d.match_buffer.length →
      ∃ d', feedBytes Mp Mb d bs = some d' ∧
        d'.match_index = d.match_index
          + (acceptedBytes Mp Mb d.pg_decryptor d.binary_decryptor bs).length ∧
        d'.match_buffer.length = d.match_buffer.length ∧
        d'.match_buffer.take d'.match_index = d.match_buffer.take d.match_index
          ++ acceptedBytes Mp Mb d.pg_decryptor d.binary_decryptor bs := by
  induction bs with
  | nil =>
    intro d _
    exact ⟨d, rfl, by simp [acceptedBytes], rfl, by simp [acceptedBytes]⟩
  | cons b bs ih =>
    intro d hfit
    by_cases h : ((Mb.MatchBeginTag d.binary_decryptor b).1 ||
        (Mp.MatchBeginTag d.pg_decryptor b).1) = true
    · have h' : ((Mp.MatchBeginTag d.pg_decryptor b).1 ||
          (Mb.MatchBeginTag d.binary_decryptor b).1) = true := by
        rw [Bool.or_comm]; exact h
      have hacc : acceptedBytes Mp Mb d.pg_decryptor d.binary_decryptor (b :: bs)
          = b :: acceptedBytes Mp Mb (Mp.MatchBeginTag d.pg_decryptor b).2
              (Mb.MatchBeginTag d.binary_decryptor b).2 bs := by
        simp [acceptedBytes, h']
      rw [hacc] at hfit ⊢
      rw [List.length_cons] at hfit ⊢
      have hidx : d.match_index < d.match_buffer.length := by omega
      have hstep := MatchBeginTag_of_accepted Mp Mb d b h hidx
      obtain ⟨d', hfeed, hi, hl, ht⟩ := ih
        { d with pg_decryptor := (Mp.MatchBeginTag d.pg_decryptor b).2
                 binary_decryptor := (Mb.MatchBeginTag d.binary_decryptor b).2
                 match_buffer := d.match_buffer.set d.match_index b
                 match_index := d.match_index + 1 }
        (by simp only [List.length_set]; omega)
      simp only [List.length_set] at hi hl ht
      refine ⟨d', ?_, ?_, ?_, ?_⟩
      · simp only [feedBytes, hstep]; exact hfeed
      · rw [hi]; omega
      · exact hl
      · rw [ht, take_succ_set _ _ _ hidx]; simp
    · have hfalse : ((Mb.MatchBeginTag d.binary_decryptor b).1 ||
          (Mp.MatchBeginTag d.pg_decryptor b).1) = false := by
        simpa using h
      have h' : ((Mp.MatchBeginTag d.pg_decryptor b).1 ||
          (Mb.MatchBeginTag d.binary_decryptor b).1) = false := by
        rw [Bool.or_comm]; exact hfalse
      have hacc : acceptedBytes Mp Mb d.pg_decryptor d.binary_decryptor (b :: bs)
          = acceptedBytes Mp Mb (Mp.MatchBeginTag d.pg_decryptor b).2
              (Mb.MatchBeginTag d.binary_decryptor b).2 bs := by
        simp [acceptedBytes, h']
      rw [hacc] at hfit ⊢
      have hstep := MatchBeginTag_of_rejected Mp Mb d b hfalse
      obtain ⟨d', hfeed, hi, hl, ht⟩ := ih
        { d with pg_decryptor := (Mp.MatchBeginTag d.pg_decryptor b).2
                 binary_decryptor := (Mb.MatchBeginTag d.binary_decryptor b).2 }
        hfit
      refine ⟨d', ?_, hi, hl, ht⟩
      simp only [feedBytes, hstep]; exact hfeed

/-- A byte buffered by the decryptor was accepted by one of the sub-matchers,
so the buffered bytes are at most the two acceptance counts together. -/
theorem acceptedBytes_length_le (Mp : DataDecryptor σp ρ) (Mb : DataDecryptor σb ρ)
    (bs : List Byte) : ∀ (sp : σp) (sb : σb),
      (acceptedBytes Mp Mb sp sb bs).length ≤ acceptedCount Mp sp bs + acceptedCount Mb sb bs := by
  induction bs with
  | nil => intro _ _; simp [acceptedBytes]
  | cons b bs ih =>
    intro sp sb
    have := ih (Mp.MatchBeginTag sp b).2 (Mb.MatchBeginTag sb b).2
    simp only [acceptedBytes, acceptedCount, List.length_append]
    cases h1 : (Mp.MatchBeginTag sp b).1 <;> cases h2 : (Mb.MatchBeginTag sb b).1 <;>
      simp <;> omega

/-- Feeding a sequence whose accepted bytes do not fit the free part of the
buffer panics: the hypothesis of `feedBytes_spec` cannot be dropped. -/
theorem feedBytes_overflow (Mp : DataDecryptor σp ρ) (Mb : DataDecryptor σb ρ)
    (bs : List Byte) :
    ∀ d : PgDecryptor σp σb κ ζ, d.match_index ≤ d.match_buffer.length →
      d.match_buffer.length
        < d.match_index + (acceptedBytes Mp Mb d.pg_decryptor d.binary_decryptor bs).length →
      feedBytes Mp Mb d bs = none := by
  induction bs with
  | nil =>
    intro d hle hlt
    simp only [acceptedBytes, List.length_nil] at hlt
    omega
  | cons b bs ih =>
    intro d hle hlt
    by_cases h : ((Mb.MatchBeginTag d.binary_decryptor b).1 ||
        (Mp.MatchBeginTag d.pg_decryptor b).1) = true
    · have h' : ((Mp.MatchBeginTag d.pg_decryptor b).1 ||
          (Mb.MatchBeginTag d.binary_decryptor b).1) = true := by
        rw [Bool.or_comm]; exact h
      have hacc : acceptedBytes Mp Mb d.pg_decryptor d.binary_decryptor (b :: bs)
          = b :: acceptedBytes Mp Mb (Mp.MatchBeginTag d.pg_decryptor b).2
              (Mb.MatchBeginTag d.binary_decryptor b).2 bs := by
        simp [acceptedBytes, h']
      rw [hacc, List.length_cons] at hlt
      by_cases hidx : d.match_index < d.match_buffer.length
      · have hstep := MatchBeginTag_of_accepted Mp Mb d b h hidx
        have := ih
          { d with pg_decryptor := (Mp.MatchBeginTag d.pg_decryptor b).2
                   binary_decryptor := (Mb.MatchBeginTag d.binary_decryptor b).2
                   match_buffer := d.match_buffer.set d.match_index b
                   match_index := d.match_index + 1 }
          (by simp only [List.length_set]; omega)
          (by simp only [List.length_set]; omega)
        simp only [feedBytes, hstep]; exact this
      · simp only [feedBytes, MatchBeginTag_of_full Mp Mb d b h hidx]
    · have hfalse : ((Mb.MatchBeginTag d.binary_decryptor b).1 ||
          (Mp.MatchBeginTag d.pg_decryptor b).1) = false := by
        simpa using h
      have h' : ((Mp.MatchBeginTag d.pg_decryptor b).1 ||
          (Mb.MatchBeginTag d.binary_decryptor b).1) = false := by
        rw [Bool.or_comm]; exact hfalse
      have hacc : acceptedBytes Mp Mb d.pg_decryptor d.binary_decryptor (b :: bs)
          = acceptedBytes Mp Mb (Mp.MatchBeginTag d.pg_decryptor b).2
              (Mb.MatchBeginTag d.binary_decryptor b).2 bs := by
        simp [acceptedBytes, h']
      rw [hacc] at hlt
      have hstep := MatchBeginTag_of_rejected Mp Mb d b hfalse
      have := ih
        { d with pg_decryptor := (Mp.MatchBeginTag d.pg_decryptor b).2
                 binary_decryptor := (Mb.MatchBeginTag d.binary_decryptor b).2 }
        hle hlt
      simp only [feedBytes, hstep]; exact this

/-- Feeding a concatenation is feeding the parts one after the other. -/
theorem feedBytes_append (Mp : DataDecryptor σp ρ) (Mb : DataDecryptor σb ρ)
    (xs ys : List Byte) : ∀ d : PgDecryptor σp σb κ ζ,
      feedBytes Mp Mb d (xs ++ ys) = (feedBytes Mp Mb d xs).bind (fun e => feedBytes Mp Mb e ys) := by
  induction xs with
  | nil => intro d; rfl
  | cons x xs ih =>
    intro d
    simp only [List.cons_append, feedBytes]
    cases MatchBeginTag Mp Mb d x with
    | none => rfl
    | some r => exact ih r.2

/-- The test double `tagMatcher tag` never accepts more bytes than are left of
its marker. -/
theorem tagMatcher_acceptedCount (tag : List Byte) (bs : List Byte) :
    ∀ i : Nat, i ≤ tag.length → acceptedCount (tagMatcher tag) i bs + i ≤ tag.length := by
  induction bs with
  | nil => intro i hi; simpa [acceptedCount] using hi
  | cons b bs ih =>
    intro i hi
    by_cases h : tag[i]? = some b
    · have hlt : i < tag.length := by
        by_contra hge
        rw [List.getElem?_eq_none (by omega)] at h
        exact absurd h (by simp)
      have hstep : (tagMatcher tag).MatchBeginTag i b = (true, i + 1) := by
        simp [tagMatcher, h]
      have := ih (i + 1) hlt
      simp only [acceptedCount, hstep, if_true]
      omega
    · have hstep : (tagMatcher tag).MatchBeginTag i b = (false, i) := by
        simp [tagMatcher, h]
      have := ih i hi
      simp only [acceptedCount, hstep]
      simpa using this

/-- C3. Buffer bound.  Let both sub-matchers keep the contract that, whatever
bytes they are offered, they accept no more of them than their own marker is
long.  Then for every byte sequence fed through `MatchBeginTag` to a decryptor
built by `NewPgDecryptor`, after every number `n` of bytes no call has panicked,
the buffer still has capacity `len(ESCAPE_TAG_BEGIN) + len(TAG_BEGIN)`,
`0 ≤ match_index ≤ capacity`, and the next call, whatever its byte, does not
write out of range either. -/
theorem match_index_bounded (Mp : DataDecryptor σp ρ) (Mb : DataDecryptor σb ρ)
    (ESCAPE_TAG_BEGIN TAG_BEGIN : List Byte) (NewBinaryDecryptor : σb) (client_id : GoBytes)
    (decryptor : σp)
    (hp : ∀ bs, acceptedCount Mp decryptor bs ≤ ESCAPE_TAG_BEGIN.length)
    (hb : ∀ bs, acceptedCount Mb NewBinaryDecryptor bs ≤ TAG_BEGIN.length)
    (bs : List Byte) (n : Nat) :
    ∃ d : PgDecryptor σp σb κ ζ,
      feedBytes Mp Mb (NewPgDecryptor ESCAPE_TAG_BEGIN TAG_BEGIN NewBinaryDecryptor client_id
        decryptor) (bs.take n) = some d ∧
      d.match_buffer.length = ESCAPE_TAG_BEGIN.length + TAG_BEGIN.length ∧
      (0 : Int) ≤ (d.match_index : Int) ∧
      d.match_index ≤ d.match_buffer.length ∧
      ∀ b, ∃ r, MatchBeginTag Mp Mb d b = some r := by
  have key : ∀ xs : List Byte, ∃ d : PgDecryptor σp σb κ ζ,
      feedBytes Mp Mb (NewPgDecryptor ESCAPE_TAG_BEGIN TAG_BEGIN NewBinaryDecryptor client_id
        decryptor) xs = some d ∧
      d.match_buffer.length = ESCAPE_TAG_BEGIN.length + TAG_BEGIN.length ∧
      d.match_index ≤ d.match_buffer.length := by
    intro xs
    have hlen := acceptedBytes_length_le Mp Mb xs decryptor NewBinaryDecryptor
    have h1 := hp xs
    have h2 := hb xs
    obtain ⟨d, hfeed, hi, hl, _⟩ := feedBytes_spec Mp Mb xs
      (NewPgDecryptor ESCAPE_TAG_BEGIN TAG_BEGIN NewBinaryDecryptor client_id decryptor :
        PgDecryptor σp σb κ ζ)
      (by simp only [NewPgDecryptor, List.length_replicate]; omega)
    simp only [NewPgDecryptor, List.length_replicate] at hi hl
    refine ⟨d, hfeed, hl, ?_⟩
    rw [hi, hl]
    omega
  obtain ⟨d, hfeed, hl, hi⟩ := key (bs.take n)
  refine ⟨d, hfeed, hl, Int.ofNat_nonneg _, hi, fun b => ?_⟩
  obtain ⟨e, hfeed', _, _⟩ := key (bs.take n ++ [b])
  rw [feedBytes_append, hfeed] at hfeed'
  simp only [Option.bind, feedBytes] at hfeed'
  cases hm : MatchBeginTag Mp Mb d b with
  | none => rw [hm] at hfeed'; exact absurd hfeed' (by simp)
  | some r => exact ⟨r, rfl⟩

/-- Witness of C3: two marker automata for the markers `EB` and `BX`, fed
`B`, `E`, `B`. -/
theorem match_index_bounded_witness :
    ∃ d : TestDecryptor,
      feedBytes (tagMatcher [69, 66]) (tagMatcher [66, 88])
        (NewPgDecryptor [69, 66] [66, 88] 0 (some [1]) 0) (([66, 69, 66] : List Byte).take 3)
        = some d ∧
      d.match_buffer.length = ([69, 66] : List Byte).length + ([66, 88] : List Byte).length ∧
      (0 : Int) ≤ (d.match_index : Int) ∧
      d.match_index ≤ d.match_buffer.length ∧
      ∀ b, ∃ r, MatchBeginTag (tagMatcher [69, 66]) (tagMatcher [66, 88]) d b = some r :=
  match_index_bounded (tagMatcher [69, 66]) (tagMatcher [66, 88]) [69, 66] [66, 88] 0 (some [1]) 0
    (fun bs => by have := tagMatcher_acceptedCount [69, 66] bs 0 (Nat.zero_le _); omega)
    (fun bs => by have := tagMatcher_acceptedCount [66, 88] bs 0 (Nat.zero_le _); omega)
    [66, 69, 66] 3

/-- Witness of C4: the byte `X` offered in `spuriousState` is taken by the
binary sub-matcher only and stored at index 3. -/
theorem MatchBeginTag_step_witness :
    ∃ r d', MatchBeginTag (tagMatcher [69, 66]) (tagMatcher [66, 88]) spuriousState 88
        = some (r, d') ∧
      d'.pg_decryptor = ((tagMatcher [69, 66] : DataDecryptor Nat (List Byte)).MatchBeginTag
        spuriousState.pg_decryptor 88).2 ∧
      d'.binary_decryptor = ((tagMatcher [66, 88] : DataDecryptor Nat (List Byte)).MatchBeginTag
        spuriousState.binary_decryptor 88).2 ∧
      (r = true ↔ ((tagMatcher [69, 66] : DataDecryptor Nat (List Byte)).MatchBeginTag
          spuriousState.pg_decryptor 88).1 = true ∨
        ((tagMatcher [66, 88] : DataDecryptor Nat (List Byte)).MatchBeginTag
          spuriousState.binary_decryptor 88).1 = true) ∧
      (r = true → d'.match_buffer = spuriousState.match_buffer.set spuriousState.match_index 88 ∧
        d'.match_buffer[spuriousState.match_index]? = some 88 ∧
        d'.match_index = spuriousState.match_index + 1) ∧
      (r = false → d'.match_buffer = spuriousState.match_buffer ∧
        d'.match_index = spuriousState.match_index) :=
  MatchBeginTag_step (tagMatcher [69, 66]) (tagMatcher [66, 88]) spuriousState 88
    (fun _ => by decide)

/-- C5. Starting right after `Reset` or right after construction, feed any
byte sequence whose accepted bytes fit the buffer: no call panics, and
`GetMatched` is exactly the subsequence, in feeding order, of the fed bytes that
at least one sub-matcher accepted; `match_index`, its length, is the number of
those bytes. -/
theorem GetMatched_accepted_subsequence (Mp : DataDecryptor σp ρ) (Mb : DataDecryptor σb ρ)
    (ESCAPE_TAG_BEGIN TAG_BEGIN : List Byte) (NewBinaryDecryptor : σb) (client_id : GoBytes)
    (decryptor : σp) (d d0 : PgDecryptor σp σb κ ζ) (bs : List Byte)
    (hstart : d0 = Reset Mp Mb d ∨
      d0 = NewPgDecryptor ESCAPE_TAG_BEGIN TAG_BEGIN NewBinaryDecryptor client_id decryptor)
    (hfit : (acceptedBytes Mp Mb d0.pg_decryptor d0.binary_decryptor bs).length
      ≤ d0.match_buffer.length) :
    ∃ d', feedBytes Mp Mb d0 bs = some d' ∧
      GetMatched d' = some (acceptedBytes Mp Mb d0.pg_decryptor d0.binary_decryptor bs) ∧
      d'.match_index = (acceptedBytes Mp Mb d0.pg_decryptor d0.binary_decryptor bs).length := by
  have hzero : d0.match_index = 0 := by
    rcases hstart with h | h <;> rw [h] <;> rfl
  obtain ⟨d', hfeed, hi, hl, ht⟩ := feedBytes_spec Mp Mb bs d0 (by rw [hzero]; omega)
  rw [hzero] at hi ht
  simp only [Nat.zero_add, List.take_zero, List.nil_append] at hi ht
  refine ⟨d', hfeed, ?_, hi⟩
  unfold GetMatched
  rw [if_pos (by rw [hi, hl]; exact hfit), ht]

/-- Witness of C5: after `Reset` of `spuriousState`, feeding `B`, `Z`, `E`, `B`
buffers `B`, `E`, `B`. -/
theorem GetMatched_accepted_subsequence_witness :
    ∃ d', feedBytes (tagMatcher [69, 66]) (tagMatcher [66, 88])
        (Reset (tagMatcher [69, 66]) (tagMatcher [66, 88]) spuriousState) [66, 90, 69, 66]
        = some d' ∧
      GetMatched d' = some [66, 69, 66] ∧ d'.match_index = 3 :=
  GetMatched_accepted_subsequence (tagMatcher [69, 66]) (tagMatcher [66, 88]) [69, 66] [66, 88]
    0 (some [1]) 0 spuriousState _ [66, 90, 69, 66] (Or.inl rfl) (by decide)

/-- Counterexample to C6 as stated: zone mode is on, the zone matcher reports
no match, and `GetPrivateKey` succeeds, because the key store has a key under
the id the unmatched zone matcher hands out. -/
theorem GetPrivateKey_zone_unmatched_succeeds :
    IsWithZone zoneUnmatchedState = true ∧
    zoneUnmatchedState.zone_matcher.map flagZoneMatcher.IsMatched = some false ∧
    GetPrivateKey tableKeyStore flagZoneMatcher zoneUnmatchedState
      = some ((some [9, 9], none), zoneUnmatchedState) :=
  ⟨rfl, rfl, rfl⟩

/-- C6, amended. In zone mode with a zone matcher that reports no match,
`GetPrivateKey` does not look at the matched flag: it returns the key store's
tenant-key lookup for the id the zone matcher currently hands out, so it fails
exactly when that lookup fails; and it never queries the key store by
`client_id`: outcome and key-store state are the same whatever the client-key
lookup would do and whatever `client_id` is. -/
theorem GetPrivateKey_zone_unmatched (ks : KeyStore κ) (zm : ZoneIdMatcher ζ)
    (d : PgDecryptor σp σb κ ζ) (z : ζ) (k : κ)
    (hzone : IsWithZone d = true) (hz : d.zone_matcher = some z) (hk : d.key_store = some k)
    (hun : zm.IsMatched z = false) :
    GetPrivateKey ks zm d
      = some ((ks.GetZonePrivateKey k (zm.GetZoneId z)).1,
          { d with key_store := some (ks.GetZonePrivateKey k (zm.GetZoneId z)).2 }) ∧
    (∀ o, GetPrivateKey ks zm d = some o →
      (o.1.2 ≠ none ↔ (ks.GetZonePrivateKey k (zm.GetZoneId z)).1.2 ≠ none)) ∧
    (∀ (f : κ → GoBytes → (Option PrivateKey × Option GoError) × κ) (cid : GoBytes),
      (GetPrivateKey { ks with GetServerPrivateKey := f } zm { d with client_id := cid }).map
          (fun o => (o.1, o.2.key_store))
        = (GetPrivateKey ks zm d).map (fun o => (o.1, o.2.key_store))) := by
  have hzone' : d.is_with_zone = true := hzone
  have _ := hun
  have main : ∀ (ks' : KeyStore κ) (d' : PgDecryptor σp σb κ ζ),
      d'.is_with_zone = true → d'.zone_matcher = some z → d'.key_store = some k →
      GetPrivateKey ks' zm d'
        = some ((ks'.GetZonePrivateKey k (zm.GetZoneId z)).1,
            { d' with key_store := some (ks'.GetZonePrivateKey k (zm.GetZoneId z)).2 }) := by
    intro ks' d' h1 h2 h3
    simp [GetPrivateKey, GetMatchedZoneId, IsWithZone, h1, h2, h3]
  refine ⟨main ks d hzone' hz hk, ?_, ?_⟩
  · intro o ho
    rw [main ks d hzone' hz hk] at ho
    cases ho
    exact Iff.rfl
  · intro f cid
    rw [main ks d hzone' hz hk, main { ks with GetServerPrivateKey := f }
      { d with client_id := cid } hzone' hz hk]
    rfl

/-- Witness of C6, amended, at `zoneUnmatchedState`. -/
theorem GetPrivateKey_zone_unmatched_witness :
    GetPrivateKey tableKeyStore flagZoneMatcher zoneUnmatchedState
      = some ((tableKeyStore.GetZonePrivateKey ([(some [], [9, 9])], [(some [1], [7, 7])])
            (flagZoneMatcher.GetZoneId (false, some []))).1,
          { zoneUnmatchedState with
            key_store := some (tableKeyStore.GetZonePrivateKey
              ([(some [], [9, 9])], [(some [1], [7, 7])])
              (flagZoneMatcher.GetZoneId (false, some []))).2 }) :=
  (GetPrivateKey_zone_unmatched tableKeyStore flagZoneMatcher zoneUnmatchedState
    (false, some []) ([(some [], [9, 9])], [(some [1], [7, 7])]) rfl rfl rfl rfl).1

/-- C7. Client-mode key resolution: with zone mode off and a key store set,
`GetPrivateKey` returns exactly the key store's result (key and error) of the
lookup by the decryptor's `client_id` and fails iff that lookup fails; the
outcome and the key-store state do not depend on the zone matcher, whatever its
behaviour, whether it is set, matched or not, and whatever tenant id it
holds. -/
theorem GetPrivateKey_client_mode (ks : KeyStore κ) (zm : ZoneIdMatcher ζ)
    (d : PgDecryptor σp σb κ ζ) (k : κ)
    (hzone : IsWithZone d = false) (hk : d.key_store = some k) :
    GetPrivateKey ks zm d
      = some ((ks.GetServerPrivateKey k d.client_id).1,
          { d with key_store := some (ks.GetServerPrivateKey k d.client_id).2 }) ∧
    (∀ o, GetPrivateKey ks zm d = some o →
      (o.1.2 ≠ none ↔ (ks.GetServerPrivateKey k d.client_id).1.2 ≠ none)) ∧
    (∀ (zm' : ZoneIdMatcher ζ) (z' : Option ζ),
      (GetPrivateKey ks zm' { d with zone_matcher := z' }).map (fun o => (o.1, o.2.key_store))
        = (GetPrivateKey ks zm d).map (fun o => (o.1, o.2.key_store))) := by
  have hzone' : d.is_with_zone = false := hzone
  have main : ∀ (zm' : ZoneIdMatcher ζ) (d' : PgDecryptor σp σb κ ζ),
      d'.is_with_zone = false → d'.key_store = some k →
      GetPrivateKey ks zm' d'
        = some ((ks.GetServerPrivateKey k d'.client_id).1,
            { d' with key_store := some (ks.GetServerPrivateKey k d'.client_id).2 }) := by
    intro zm' d' h1 h3
    simp [GetPrivateKey, IsWithZone, h1, h3]
  refine ⟨main zm d hzone' hk, ?_, ?_⟩
  · intro o ho
    rw [main zm d hzone' hk] at ho
    cases ho
    exact Iff.rfl
  · intro zm' z'
    rw [main zm d hzone' hk, main zm' { d with zone_matcher := z' } hzone' hk]
    rfl

/-- Witness of C7: `spuriousState` is in client mode and its key store holds
the key `[7, 7]` for its client. -/
theorem GetPrivateKey_client_mode_witness :
    GetPrivateKey tableKeyStore flagZoneMatcher spuriousState
      = some ((some [7, 7], none), spuriousState) :=
  (GetPrivateKey_client_mode tableKeyStore flagZoneMatcher spuriousState
    ([], [(some [1], [7, 7])]) rfl rfl).1

/-- C8. No fallback in zone mode: with zone mode on, a zone matcher and a key
store set, `GetPrivateKey` returns exactly the key store's result of the
tenant-key lookup keyed by the zone matcher's current tenant id; a failure of
that lookup is returned as it is; and the client-key lookup is not consulted:
outcome and key-store state are the same whatever the client-key lookup would
do and whatever `client_id` is. -/
theorem GetPrivateKey_zone_mode (ks : KeyStore κ) (zm : ZoneIdMatcher ζ)
    (d : PgDecryptor σp σb κ ζ) (z : ζ) (k : κ)
    (hzone : IsWithZone d = true) (hz : d.zone_matcher = some z) (hk : d.key_store = some k) :
    (∃ d', GetPrivateKey ks zm d = some ((ks.GetZonePrivateKey k (zm.GetZoneId z)).1, d') ∧
      d'.key_store = some (ks.GetZonePrivateKey k (zm.GetZoneId z)).2) ∧
    (∀ e, (ks.GetZonePrivateKey k (zm.GetZoneId z)).1.2 = some e →
      ∃ o, GetPrivateKey ks zm d = some o ∧ o.1.2 = some e ∧
        o.1.1 = (ks.GetZonePrivateKey k (zm.GetZoneId z)).1.1) ∧
    (∀ (f : κ → GoBytes → (Option PrivateKey × Option GoError) × κ) (cid : GoBytes),
      (GetPrivateKey { ks with GetServerPrivateKey := f } zm { d with client_id := cid }).map
          (fun o => (o.1, o.2.key_store))
        = (GetPrivateKey ks zm d).map (fun o => (o.1, o.2.key_store))) := by
  have hzone' : d.is_with_zone = true := hzone
  have main : ∀ (ks' : KeyStore κ) (d' : PgDecryptor σp σb κ ζ),
      d'.is_with_zone = true → d'.zone_matcher = some z → d'.key_store = some k →
      GetPrivateKey ks' zm d'
        = some ((ks'.GetZonePrivateKey k (zm.GetZoneId z)).1,
            { d' with key_store := some (ks'.GetZonePrivateKey k (zm.GetZoneId z)).2 }) := by
    intro ks' d' h1 h2 h3
    simp [GetPrivateKey, GetMatchedZoneId, IsWithZone, h1, h2, h3]
  refine ⟨⟨_, main ks d hzone' hz hk, rfl⟩, ?_, ?_⟩
  · intro e he
    exact ⟨_, main ks d hzone' hz hk, he, rfl⟩
  · intro f cid
    rw [main ks d hzone' hz hk, main { ks with GetServerPrivateKey := f }
      { d with client_id := cid } hzone' hz hk]
    rfl

/-- Witness of C8: in `zoneMatchedState` the tenant `[4]` has no key, the client
`[1]` has one, and the failure of the tenant lookup is what comes back. -/
theorem GetPrivateKey_zone_mode_witness :
    ∃ o, GetPrivateKey tableKeyStore flagZoneMatcher zoneMatchedState = some o ∧
      o.1.2 = some "no zone key" ∧ o.1.1 = none :=
  (GetPrivateKey_zone_mode tableKeyStore flagZoneMatcher zoneMatchedState (true, some [4])
    ([(some [], [9, 9])], [(some [1], [7, 7])]) rfl rfl rfl).2.1 "no zone key" rfl

/-- C9. `Reset` clears the matching state and is idempotent, given that a
sub-matcher that was just reset reports no match.  After `Reset`,
`match_index = 0`, `GetMatched` is empty, no sub-matcher is selected and both
sub-matchers have been reset.  A second `Reset` changes nothing but resetting
the two already reset sub-matchers once more: every field of the decryptor
itself, `GetMatched` and the answer of `IsMatched` are as after one `Reset`, and
the whole state is the same when the sub-matchers' own reset is idempotent.
`IsMatched` right after `Reset` answers false, selects nobody and leaves the
state as it is. -/
theorem Reset_idempotent (Mp : DataDecryptor σp ρ) (Mb : DataDecryptor σb ρ)
    (d : PgDecryptor σp σb κ ζ)
    (hp : ∀ s, Mp.IsMatched (Mp.Reset s) = false)
    (hb : ∀ s, Mb.IsMatched (Mb.Reset s) = false) :
    ((Reset Mp Mb d).match_index = 0 ∧
      GetMatched (Reset Mp Mb d) = some [] ∧
      (Reset Mp Mb d).matched_decryptor = none ∧
      (Reset Mp Mb d).binary_decryptor = Mb.Reset d.binary_decryptor ∧
      (Reset Mp Mb d).pg_decryptor = Mp.Reset d.pg_decryptor) ∧
    (Reset Mp Mb (Reset Mp Mb d)
        = { Reset Mp Mb d with pg_decryptor := Mp.Reset (Mp.Reset d.pg_decryptor)
                               binary_decryptor := Mb.Reset (Mb.Reset d.binary_decryptor) } ∧
      GetMatched (Reset Mp Mb (Reset Mp Mb d)) = GetMatched (Reset Mp Mb d) ∧
      (IsMatched Mp Mb (Reset Mp Mb (Reset Mp Mb d))).1 = (IsMatched Mp Mb (Reset Mp Mb d)).1 ∧
      (IsMatched Mp Mb (Reset Mp Mb (Reset Mp Mb d))).2.matched_decryptor
        = (IsMatched Mp Mb (Reset Mp Mb d)).2.matched_decryptor ∧
      ((∀ s, Mp.Reset (Mp.Reset s) = Mp.Reset s) → (∀ s, Mb.Reset (Mb.Reset s) = Mb.Reset s) →
        Reset Mp Mb (Reset Mp Mb d) = Reset Mp Mb d)) ∧
    IsMatched Mp Mb (Reset Mp Mb d) = (false, Reset Mp Mb d) := by
  have hm : ∀ e : PgDecryptor σp σb κ ζ,
      IsMatched Mp Mb (Reset Mp Mb e) = (false, Reset Mp Mb e) := by
    intro e
    simp [IsMatched, Reset, hp, hb]
  refine ⟨⟨rfl, ?_, rfl, rfl, rfl⟩, ⟨rfl, ?_, ?_, ?_, ?_⟩, hm d⟩
  · simp [GetMatched, Reset]
  · simp [GetMatched, Reset]
  · rw [hm, hm]
  · rw [hm, hm]; rfl
  · intro hip hib
    simp [Reset, hip, hib]

/-- Witness of C9 at `spuriousState` over two marker automata. -/
theorem Reset_idempotent_witness :
    IsMatched (tagMatcher [69, 66]) (tagMatcher [66, 88])
        (Reset (tagMatcher [69, 66]) (tagMatcher [66, 88]) spuriousState)
      = (false, Reset (tagMatcher [69, 66]) (tagMatcher [66, 88]) spuriousState) ∧
    Reset (tagMatcher [69, 66]) (tagMatcher [66, 88])
        (Reset (tagMatcher [69, 66]) (tagMatcher [66, 88]) spuriousState)
      = Reset (tagMatcher [69, 66]) (tagMatcher [66, 88]) spuriousState :=
  ⟨(Reset_idempotent (tagMatcher [69, 66]) (tagMatcher [66, 88]) spuriousState
      (fun _ => rfl) (fun _ => rfl)).2.2,
    (Reset_idempotent (tagMatcher [69, 66]) (tagMatcher [66, 88]) spuriousState
      (fun _ => rfl) (fun _ => rfl)).2.1.2.2.2.2 (fun _ => rfl) (fun _ => rfl)⟩

/-- The error `ReadData` returns and the states it leaves, in terms of the
dispatched call. -/
theorem ReadData_dispatch (Mp : DataDecryptor σp ρ) (Mb : DataDecryptor σb ρ)
    (d : PgDecryptor σp σb κ ζ) (m : Matcher) (key : List Byte) (zone : GoBytes) (reader : ρ)
    (hres : d.matched_decryptor = some m)
    (hcap : d.match_index - (matchedGetMatched Mp Mb d m).length ≤ d.match_buffer.length) :
    ∃ o, ReadData Mp Mb d key zone reader = some o ∧
      o.1.2 = (matchedReadData Mp Mb d m key zone reader).1.2 ∧
      o.2.1.pg_decryptor = (matchedReadData Mp Mb d m key zone reader).2.1.pg_decryptor ∧
      o.2.1.binary_decryptor
        = (matchedReadData Mp Mb d m key zone reader).2.1.binary_decryptor ∧
      o.2.2 = (matchedReadData Mp Mb d m key zone reader).2.2 := by
  have hbuf := (matchedReadData_buffer Mp Mb d m key zone reader).1
  unfold ReadData
  rw [hres]
  by_cases hk : ((d.match_index : Int) - ((matchedGetMatched Mp Mb d m).length : Int)) > 0
  · have htn : ((d.match_index : Int) - ((matchedGetMatched Mp Mb d m).length : Int)).toNat
        = d.match_index - (matchedGetMatched Mp Mb d m).length := by omega
    simp only [hk, if_true, htn, hbuf, appendToSlice, hcap]
    split_ifs <;> exact ⟨_, rfl, rfl, rfl, rfl, rfl⟩
  · simp only [hk, if_false]
    exact ⟨_, rfl, rfl, rfl, rfl, rfl⟩

/-- C10. Error propagation in `ReadData`, for either winner.  In a resolved
state (with `match_buffer[0..match_index - w]` a slice of the buffer, `w` being
the length of the winner's own `GetMatched()`), for every symmetric key, zone id
and reader, `ReadData` returns, and its error is the very error of the winning
sub-matcher's own `ReadData` on that key, zone id and reader, so it fails iff
that call failed.  The winning sub-matcher and the reader are left as that one
call leaves them, and the losing sub-matcher is left as it was: the winner's
`ReadData` ran exactly once and nothing else did.  No assumption is made on
whether spurious bytes are put in front of the data or not. -/
theorem ReadData_error_propagation (Mp : DataDecryptor σp ρ) (Mb : DataDecryptor σb ρ)
    (d : PgDecryptor σp σb κ ζ) (key : List Byte) (zone : GoBytes) (reader : ρ) :
    (d.matched_decryptor = some Matcher.binary →
      d.match_index - (Mb.GetMatched d.binary_decryptor).length ≤ d.match_buffer.length →
      ∃ o, ReadData Mp Mb d key zone reader = some o ∧
        o.1.2 = (Mb.ReadData d.binary_decryptor key zone reader).1.2 ∧
        (o.1.2 ≠ none ↔ (Mb.ReadData d.binary_decryptor key zone reader).1.2 ≠ none) ∧
        o.2.1.binary_decryptor = (Mb.ReadData d.binary_decryptor key zone reader).2.1 ∧
        o.2.1.pg_decryptor = d.pg_decryptor ∧
        o.2.2 = (Mb.ReadData d.binary_decryptor key zone reader).2.2) ∧
    (d.matched_decryptor = some Matcher.pg →
      d.match_index - (Mp.GetMatched d.pg_decryptor).length ≤ d.match_buffer.length →
      ∃ o, ReadData Mp Mb d key zone reader = some o ∧
        o.1.2 = (Mp.ReadData d.pg_decryptor key zone reader).1.2 ∧
        (o.1.2 ≠ none ↔ (Mp.ReadData d.pg_decryptor key zone reader).1.2 ≠ none) ∧
        o.2.1.pg_decryptor = (Mp.ReadData d.pg_decryptor key zone reader).2.1 ∧
        o.2.1.binary_decryptor = d.binary_decryptor ∧
        o.2.2 = (Mp.ReadData d.pg_decryptor key zone reader).2.2) := by
  constructor
  · intro hres hcap
    obtain ⟨o, ho, herr, hpg, hbin, hrd⟩ :=
      ReadData_dispatch Mp Mb d Matcher.binary key zone reader hres hcap
    have herr' : o.1.2 = (Mb.ReadData d.binary_decryptor key zone reader).1.2 := herr
    exact ⟨o, ho, herr', by rw [herr'], hbin, hpg, hrd⟩
  · intro hres hcap
    obtain ⟨o, ho, herr, hpg, hbin, hrd⟩ :=
      ReadData_dispatch Mp Mb d Matcher.pg key zone reader hres hcap
    have herr' : o.1.2 = (Mp.ReadData d.pg_decryptor key zone reader).1.2 := herr
    exact ⟨o, ho, herr', by rw [herr'], hpg, hbin, hrd⟩

/-- Witness of C10.  In `spuriousState` the escaped sub-matcher is the winner,
one byte is put in front of the data, the reader is empty, and the escaped
sub-matcher's end-of-input error comes back; in `cleanBinaryState` the binary
sub-matcher is the winner, nothing is put in front, and its error comes back
just the same. -/
theorem ReadData_error_propagation_witness :
    (∃ o, ReadData (tagMatcher [69, 66]) (tagMatcher [66, 88]) spuriousState [] none []
        = some o ∧
      o.1.2 = ((tagMatcher [69, 66]).ReadData spuriousState.pg_decryptor [] none []).1.2 ∧
      o.1.2 = some "unexpected EOF") ∧
    (∃ o, ReadData (tagMatcher [69, 66]) (tagMatcher [66, 88]) cleanBinaryState [] none []
        = some o ∧
      o.1.2 = ((tagMatcher [66, 88]).ReadData cleanBinaryState.binary_decryptor [] none
        []).1.2 ∧
      o.1.2 = some "unexpected EOF") := by
  constructor
  · obtain ⟨o, ho, herr, _⟩ := (ReadData_error_propagation (tagMatcher [69, 66])
      (tagMatcher [66, 88]) spuriousState [] none []).2 rfl (by decide)
    exact ⟨o, ho, herr, herr⟩
  · obtain ⟨o, ho, herr, _⟩ := (ReadData_error_propagation (tagMatcher [69, 66])
      (tagMatcher [66, 88]) cleanBinaryState [] none []).1 rfl (by decide)
    exact ⟨o, ho, herr, herr⟩

/-- C11. Winner and flag agree after `IsMatched`.  The stored winner is one of
nobody, binary, escaped, and which one is decided by the sub-matchers: binary
iff the binary sub-matcher reports a complete match, escaped iff the binary one
does not and the escaped one does, nobody iff neither does; so a selected
sub-matcher itself reports a complete match.  The boolean result is true iff a
sub-matcher is selected, which is iff at least one of them reports a complete
match.  `match_index`, `match_buffer` and the sub-matchers are left as they
were. -/
theorem IsMatched_consistent (Mp : DataDecryptor σp ρ) (Mb : DataDecryptor σb ρ)
    (d : PgDecryptor σp σb κ ζ) :
    ((IsMatched Mp Mb d).2.matched_decryptor = none ∨
      (IsMatched Mp Mb d).2.matched_decryptor = some Matcher.binary ∨
      (IsMatched Mp Mb d).2.matched_decryptor = some Matcher.pg) ∧
    ((IsMatched Mp Mb d).2.matched_decryptor = some Matcher.binary ↔
      Mb.IsMatched (IsMatched Mp Mb d).2.binary_decryptor = true) ∧
    ((IsMatched Mp Mb d).2.matched_decryptor = some Matcher.pg ↔
      Mb.IsMatched (IsMatched Mp Mb d).2.binary_decryptor = false ∧
      Mp.IsMatched (IsMatched Mp Mb d).2.pg_decryptor = true) ∧
    ((IsMatched Mp Mb d).2.matched_decryptor = none ↔
      Mb.IsMatched (IsMatched Mp Mb d).2.binary_decryptor = false ∧
      Mp.IsMatched (IsMatched Mp Mb d).2.pg_decryptor = false) ∧
    ((IsMatched Mp Mb d).1 = true ↔ (IsMatched Mp Mb d).2.matched_decryptor ≠ none) ∧
    ((IsMatched Mp Mb d).1 = true ↔
      Mb.IsMatched d.binary_decryptor = true ∨ Mp.IsMatched d.pg_decryptor = true) ∧
    (IsMatched Mp Mb d).2.match_index = d.match_index ∧
    (IsMatched Mp Mb d).2.match_buffer = d.match_buffer ∧
    (IsMatched Mp Mb d).2.binary_decryptor = d.binary_decryptor ∧
    (IsMatched Mp Mb d).2.pg_decryptor = d.pg_decryptor := by
  unfold IsMatched
  cases hb : Mb.IsMatched d.binary_decryptor <;> cases hp : Mp.IsMatched d.pg_decryptor <;>
    simp [hb, hp]

/-- C13. Frame of `Reset`: the zone matcher, the key store, zone mode,
`client_id`, the poison key, the callback registry and the contents of
`match_buffer` are the same after `Reset` as before; the state after `Reset` is
the state before with nothing replaced but the winner, the two sub-matchers and
`match_index`. -/
theorem Reset_frame (Mp : DataDecryptor σp ρ) (Mb : DataDecryptor σb ρ)
    (d : PgDecryptor σp σb κ ζ) :
    (Reset Mp Mb d).zone_matcher = d.zone_matcher ∧
    (Reset Mp Mb d).key_store = d.key_store ∧
    IsWithZone (Reset Mp Mb d) = IsWithZone d ∧
    (Reset Mp Mb d).client_id = d.client_id ∧
    GetPoisonKey (Reset Mp Mb d) = GetPoisonKey d ∧
    GetPoisonCallbackStorage (Reset Mp Mb d) = GetPoisonCallbackStorage d ∧
    (Reset Mp Mb d).match_buffer = d.match_buffer ∧
    { Reset Mp Mb d with matched_decryptor := d.matched_decryptor
                         binary_decryptor := d.binary_decryptor
                         pg_decryptor := d.pg_decryptor
                         match_index := d.match_index } = d :=
  ⟨rfl, rfl, rfl, rfl, rfl, rfl, rfl, rfl⟩

/-- C17. `GetMatchedZoneId` returns nil in every state with zone mode off,
whatever the zone matcher is and holds, and the zone matcher's current tenant
id in every state with zone mode on (and a zone matcher set). -/
theorem GetMatchedZoneId_by_mode (zm : ZoneIdMatcher ζ) (d : PgDecryptor σp σb κ ζ) :
    (IsWithZone d = false → GetMatchedZoneId zm d = some none) ∧
    (IsWithZone d = true → ∀ z, d.zone_matcher = some z →
      GetMatchedZoneId zm d = some (zm.GetZoneId z)) := by
  constructor
  · intro h
    simp [GetMatchedZoneId, h]
  · intro h z hz
    simp [GetMatchedZoneId, h, hz]

/-- Witness of C17: `spuriousState` is in client mode, `zoneMatchedState` is in
zone mode with the tenant id `[4]`. -/
theorem GetMatchedZoneId_by_mode_witness :
    GetMatchedZoneId flagZoneMatcher spuriousState = some none ∧
    GetMatchedZoneId flagZoneMatcher zoneMatchedState = some (some [4]) :=
  ⟨(GetMatchedZoneId_by_mode flagZoneMatcher spuriousState).1 rfl,
    (GetMatchedZoneId_by_mode flagZoneMatcher zoneMatchedState).2 rfl (true, some [4]) rfl⟩

/-- A slice with storage apart from the match buffer shows the same bytes
whatever the match buffer holds. -/
theorem ByteSlice.bytes_of_apart (key : ByteSlice) (buf buf' : List Byte)
    (h : key.sharesMatchBuffer = false) : ByteSlice.bytes buf key = ByteSlice.bytes buf' key := by
  cases key with
  | nil => rfl
  | own bs => rfl
  | ofMatchBuffer lo hi => exact absurd h (by simp [ByteSlice.sharesMatchBuffer])

/-- The slice that `GetMatched` hands out shows the bytes that `GetMatched`
returns. -/
theorem GetMatchedSlice_bytes (d : PgDecryptor σp σb κ ζ) :
    (GetMatchedSlice d).map (ByteSlice.bytes d.match_buffer) = (GetMatched d).map some := by
  unfold GetMatchedSlice GetMatched
  split_ifs <;> simp [ByteSlice.bytes]

/-- Counterexample to C12 as stated.  In `spuriousState` the slice handed out
by `GetMatched` is stored with `SetPoisonKey`; `GetPoisonKey` then shows
`[66, 69, 66]`.  After `Reset` and `MatchBeginTag` with the byte `E`, which the
escaped sub-matcher accepts and which is stored at `match_buffer[0]`,
`GetPoisonKey` shows `[69, 69, 66]`, with no `SetPoisonKey` in between. -/
theorem poison_key_overwritten :
    GetMatchedSlice spuriousState = some (ByteSlice.ofMatchBuffer 0 3) ∧
    GetPoisonKey (SetPoisonKey spuriousState (ByteSlice.ofMatchBuffer 0 3))
      = some [66, 69, 66] ∧
    ∃ o, MatchBeginTag (tagMatcher [69, 66]) (tagMatcher [66, 88])
        (Reset (tagMatcher [69, 66]) (tagMatcher [66, 88])
          (SetPoisonKey spuriousState (ByteSlice.ofMatchBuffer 0 3))) 69 = some o ∧
      GetPoisonKey o.2 = some [69, 69, 66] ∧
      GetPoisonKey o.2
        ≠ GetPoisonKey (SetPoisonKey spuriousState (ByteSlice.ofMatchBuffer 0 3)) :=
  ⟨rfl, rfl, _, rfl, rfl, by decide⟩

/-- C12, amended.  The poison-key holder keeps the caller's slice and the
registry handle as they are.  `GetPoisonKey` after `SetPoisonKey k` shows the
bytes of `k`, `GetPoisonCallbackStorage` after `SetPoisonCallbackStorage s` is
`s`, and neither setter touches the other value.  `IsMatched`, `Reset`,
`GetPrivateKey`, `SetWithZone`, `SetZoneMatcher` and `SetKeyStore` leave both
values as they were, and `GetMatched` has no effect on the state at all.
`MatchBeginTag` and `ReadData`, when they return, leave the registry handle and
the stored slice as they were, and the bytes shown by `GetPoisonKey` too
provided the stored slice shares no storage with `match_buffer`. -/
theorem poison_storage (Mp : DataDecryptor σp ρ) (Mb : DataDecryptor σb ρ) (ks : KeyStore κ)
    (zm : ZoneIdMatcher ζ) (d : PgDecryptor σp σb κ ζ) :
    (∀ k, GetPoisonKey (SetPoisonKey d k) = ByteSlice.bytes d.match_buffer k ∧
      GetPoisonCallbackStorage (SetPoisonKey d k) = GetPoisonCallbackStorage d) ∧
    (∀ st, GetPoisonCallbackStorage (SetPoisonCallbackStorage d st) = st ∧
      GetPoisonKey (SetPoisonCallbackStorage d st) = GetPoisonKey d) ∧
    (∀ b o, MatchBeginTag Mp Mb d b = some o →
      o.2.poison_key = d.poison_key ∧
      GetPoisonCallbackStorage o.2 = GetPoisonCallbackStorage d ∧
      (d.poison_key.sharesMatchBuffer = false → GetPoisonKey o.2 = GetPoisonKey d)) ∧
    (GetPoisonKey (IsMatched Mp Mb d).2 = GetPoisonKey d ∧
      GetPoisonCallbackStorage (IsMatched Mp Mb d).2 = GetPoisonCallbackStorage d) ∧
    (GetPoisonKey (Reset Mp Mb d) = GetPoisonKey d ∧
      GetPoisonCallbackStorage (Reset Mp Mb d) = GetPoisonCallbackStorage d) ∧
    (∀ key zone reader o, ReadData Mp Mb d key zone reader = some o →
      o.2.1.poison_key = d.poison_key ∧
      GetPoisonCallbackStorage o.2.1 = GetPoisonCallbackStorage d ∧
      (d.poison_key.sharesMatchBuffer = false → GetPoisonKey o.2.1 = GetPoisonKey d)) ∧
    (∀ o, GetPrivateKey ks zm d = some o →
      GetPoisonKey o.2 = GetPoisonKey d ∧
      GetPoisonCallbackStorage o.2 = GetPoisonCallbackStorage d) ∧
    (∀ b, GetPoisonKey (SetWithZone d b) = GetPoisonKey d ∧
      GetPoisonCallbackStorage (SetWithZone d b) = GetPoisonCallbackStorage d) ∧
    (∀ z, GetPoisonKey (SetZoneMatcher d z) = GetPoisonKey d ∧
      GetPoisonCallbackStorage (SetZoneMatcher d z) = GetPoisonCallbackStorage d) ∧
    (∀ k, GetPoisonKey (SetKeyStore d k) = GetPoisonKey d ∧
      GetPoisonCallbackStorage (SetKeyStore d k) = GetPoisonCallbackStorage d) := by
  have frame : ∀ e : PgDecryptor σp σb κ ζ, e.poison_key = d.poison_key →
      e.callback_storage = d.callback_storage →
      e.poison_key = d.poison_key ∧
      GetPoisonCallbackStorage e = GetPoisonCallbackStorage d ∧
      (d.poison_key.sharesMatchBuffer = false → GetPoisonKey e = GetPoisonKey d) := by
    intro e hk hc
    refine ⟨hk, hc, fun hapart => ?_⟩
    unfold GetPoisonKey
    rw [hk]
    exact ByteSlice.bytes_of_apart _ _ _ hapart
  refine ⟨fun _ => ⟨rfl, rfl⟩, fun _ => ⟨rfl, rfl⟩, ?_, ?_, ⟨rfl, rfl⟩, ?_, ?_,
    fun _ => ⟨rfl, rfl⟩, fun _ => ⟨rfl, rfl⟩, fun _ => ⟨rfl, rfl⟩⟩
  · intro b o ho
    unfold MatchBeginTag at ho
    simp only at ho
    split_ifs at ho <;> cases ho <;> exact frame _ rfl rfl
  · unfold IsMatched
    split_ifs <;> exact ⟨rfl, rfl⟩
  · intro key zone reader o ho
    unfold ReadData at ho
    cases hm : d.matched_decryptor with
    | none => rw [hm] at ho; exact absurd ho (by simp)
    | some m =>
      rw [hm] at ho
      simp only at ho
      have hpois : (matchedReadData Mp Mb d m key zone reader).2.1.poison_key = d.poison_key ∧
          (matchedReadData Mp Mb d m key zone reader).2.1.callback_storage
            = d.callback_storage := by
        cases m <;> exact ⟨rfl, rfl⟩
      split_ifs at ho
      · cases happ : appendToSlice (matchedReadData Mp Mb d m key zone reader).2.1.match_buffer
            ((d.match_index : Int) - ((matchedGetMatched Mp Mb d m).length : Int)).toNat
            (matchedReadData Mp Mb d m key zone reader).1.1 with
        | none => rw [happ] at ho; exact absurd ho (by simp)
        | some r =>
          rw [happ] at ho
          cases ho
          exact frame _ hpois.1 hpois.2
      · cases ho
        exact frame _ hpois.1 hpois.2
  · intro o ho
    unfold GetPrivateKey at ho
    split_ifs at ho
    · cases hz : GetMatchedZoneId zm d with
      | none => rw [hz] at ho; exact absurd ho (by simp)
      | some zone_id =>
        rw [hz] at ho
        cases hk : d.key_store with
        | none => rw [hk] at ho; exact absurd ho (by simp)
        | some k => rw [hk] at ho; cases ho; exact ⟨rfl, rfl⟩
    · cases hk : d.key_store with
      | none => rw [hk] at ho; exact absurd ho (by simp)
      | some k => rw [hk] at ho; cases ho; exact ⟨rfl, rfl⟩

/-- Witness of C12, amended, at `poisonedState`, whose poison key `[13]` has
storage of its own: a byte is matched, data are read in place over the match
buffer and the private key is resolved, and the poison key and the registry are
still there. -/
theorem poison_storage_witness :
    (∃ o, MatchBeginTag (tagMatcher [69, 66]) (tagMatcher [66, 88]) poisonedState 88 = some o ∧
      GetPoisonKey o.2 = some [13] ∧ GetPoisonCallbackStorage o.2 = some 1) ∧
    (∃ o, ReadData (tagMatcher [69, 66]) (tagMatcher [66, 88]) poisonedState [] none [5, 6]
        = some o ∧
      GetPoisonKey o.2.1 = some [13] ∧ GetPoisonCallbackStorage o.2.1 = some 1) ∧
    (∃ o, GetPrivateKey tableKeyStore flagZoneMatcher poisonedState = some o ∧
      GetPoisonKey o.2 = some [13] ∧ GetPoisonCallbackStorage o.2 = some 1) :=
  ⟨⟨_, rfl, ((poison_storage (tagMatcher [69, 66]) (tagMatcher [66, 88]) tableKeyStore
      flagZoneMatcher poisonedState).2.2.1 88 _ rfl).2.2 rfl,
      ((poison_storage (tagMatcher [69, 66]) (tagMatcher [66, 88]) tableKeyStore
      flagZoneMatcher poisonedState).2.2.1 88 _ rfl).2.1⟩,
    ⟨_, rfl, ((poison_storage (tagMatcher [69, 66]) (tagMatcher [66, 88]) tableKeyStore
      flagZoneMatcher poisonedState).2.2.2.2.2.1 [] none [5, 6] _ rfl).2.2 rfl,
      ((poison_storage (tagMatcher [69, 66]) (tagMatcher [66, 88]) tableKeyStore
      flagZoneMatcher poisonedState).2.2.2.2.2.1 [] none [5, 6] _ rfl).2.1⟩,
    ⟨_, rfl, (poison_storage (tagMatcher [69, 66]) (tagMatcher [66, 88]) tableKeyStore
      flagZoneMatcher poisonedState).2.2.2.2.2.2.1 _ rfl⟩⟩

/-- C14. The poison key does not influence outcomes.  Take a state and the
state that differs from it in `poison_key` and `callback_storage` only.  Then
`MatchBeginTag`, `IsMatched`, `GetMatched`, `ReadData` and `GetPrivateKey`
return on the one exactly when they return on the other, with the same result,
the same error and the same collaborator states, and the two states after the
call again differ in `poison_key` and `callback_storage` only. -/
theorem poison_noninterference (Mp : DataDecryptor σp ρ) (Mb : DataDecryptor σb ρ)
    (ks : KeyStore κ) (zm : ZoneIdMatcher ζ) (d : PgDecryptor σp σb κ ζ) (pk : ByteSlice)
    (cs : Option PoisonCallbackStorage) :
    (∀ b, MatchBeginTag Mp Mb (withPoison d pk cs) b
      = (MatchBeginTag Mp Mb d b).map (fun o => (o.1, withPoison o.2 pk cs))) ∧
    IsMatched Mp Mb (withPoison d pk cs)
      = ((IsMatched Mp Mb d).1, withPoison (IsMatched Mp Mb d).2 pk cs) ∧
    GetMatched (withPoison d pk cs) = GetMatched d ∧
    (∀ key zone reader, ReadData Mp Mb (withPoison d pk cs) key zone reader
      = (ReadData Mp Mb d key zone reader).map (fun o => (o.1, withPoison o.2.1 pk cs, o.2.2))) ∧
    GetPrivateKey ks zm (withPoison d pk cs)
      = (GetPrivateKey ks zm d).map (fun o => (o.1, withPoison o.2 pk cs)) := by
  refine ⟨?_, ?_, rfl, ?_, ?_⟩
  · intro b
    unfold MatchBeginTag
    simp only [withPoison, SetPoisonCallbackStorage, SetPoisonKey]
    split_ifs <;> rfl
  · unfold IsMatched
    simp only [withPoison, SetPoisonCallbackStorage, SetPoisonKey]
    split_ifs <;> rfl
  · intro key zone reader
    unfold ReadData
    cases hm : d.matched_decryptor with
    | none =>
      have : (withPoison d pk cs).matched_decryptor = none := hm
      rw [this]
      rfl
    | some m =>
      have hm' : (withPoison d pk cs).matched_decryptor = some m := hm
      rw [hm']
      have hrd : matchedReadData Mp Mb (withPoison d pk cs) m key zone reader
          = ((matchedReadData Mp Mb d m key zone reader).1,
              withPoison (matchedReadData Mp Mb d m key zone reader).2.1 pk cs,
              (matchedReadData Mp Mb d m key zone reader).2.2) := by
        cases m <;> rfl
      have hgm : matchedGetMatched Mp Mb (withPoison d pk cs) m = matchedGetMatched Mp Mb d m := by
        cases m <;> rfl
      have hidx : (withPoison d pk cs).match_index = d.match_index := rfl
      simp only [hrd, hgm, hidx]
      split_ifs
      · have hb : (withPoison (matchedReadData Mp Mb d m key zone reader).2.1 pk cs).match_buffer
            = (matchedReadData Mp Mb d m key zone reader).2.1.match_buffer := rfl
        rw [hb]
        cases appendToSlice (matchedReadData Mp Mb d m key zone reader).2.1.match_buffer
            ((d.match_index : Int) - ((matchedGetMatched Mp Mb d m).length : Int)).toNat
            (matchedReadData Mp Mb d m key zone reader).1.1 with
        | none => rfl
        | some r => rfl
      · rfl
  · unfold GetPrivateKey
    have hz : IsWithZone (withPoison d pk cs) = IsWithZone d := rfl
    have hg : GetMatchedZoneId zm (withPoison d pk cs) = GetMatchedZoneId zm d := rfl
    have hk : (withPoison d pk cs).key_store = d.key_store := rfl
    rw [hz, hg, hk]
    split_ifs
    · cases GetMatchedZoneId zm d with
      | none => rfl
      | some zone_id =>
        cases d.key_store with
        | none => rfl
        | some k => rfl
    · cases d.key_store with
      | none => rfl
      | some k => rfl

/-- `IsMatched` changes nothing but the stored winner. -/
theorem IsMatched_keeps (Mp : DataDecryptor σp ρ) (Mb : DataDecryptor σb ρ)
    (d : PgDecryptor σp σb κ ζ) :
    (IsMatched Mp Mb d).2.match_index = d.match_index ∧
    (IsMatched Mp Mb d).2.pg_decryptor = d.pg_decryptor ∧
    (IsMatched Mp Mb d).2.binary_decryptor = d.binary_decryptor := by
  unfold IsMatched
  split_ifs <;> exact ⟨rfl, rfl, rfl⟩

/-- Along any sequence of calls the decryptor's sub-matchers go through
`subRun`, and `match_index` is at least the number of bytes either of them
accepted since the last `Reset`. -/
theorem runCalls_counts (Mp : DataDecryptor σp ρ) (Mb : DataDecryptor σb ρ) (cs : List Call) :
    ∀ (d d' : PgDecryptor σp σb κ ζ) (np nb : Nat),
      np ≤ d.match_index → nb ≤ d.match_index → runCalls Mp Mb d cs = some d' →
      d'.pg_decryptor = (subRun Mp d.pg_decryptor np cs).1 ∧
      d'.binary_decryptor = (subRun Mb d.binary_decryptor nb cs).1 ∧
      (subRun Mp d.pg_decryptor np cs).2 ≤ d'.match_index ∧
      (subRun Mb d.binary_decryptor nb cs).2 ≤ d'.match_index := by
  induction cs with
  | nil =>
    intro d d' np nb hp hb hrun
    simp only [runCalls, Option.some.injEq] at hrun
    subst hrun
    exact ⟨rfl, rfl, hp, hb⟩
  | cons c cs ih =>
    intro d d' np nb hp hb hrun
    cases c with
    | MatchBeginTag b =>
      simp only [runCalls] at hrun
      by_cases h : ((Mb.MatchBeginTag d.binary_decryptor b).1 ||
          (Mp.MatchBeginTag d.pg_decryptor b).1) = true
      · by_cases hidx : d.match_index < d.match_buffer.length
        · rw [MatchBeginTag_of_accepted Mp Mb d b h hidx] at hrun
          have := ih
            { d with pg_decryptor := (Mp.MatchBeginTag d.pg_decryptor b).2
                     binary_decryptor := (Mb.MatchBeginTag d.binary_decryptor b).2
                     match_buffer := d.match_buffer.set d.match_index b
                     match_index := d.match_index + 1 }
            d' (np + if (Mp.MatchBeginTag d.pg_decryptor b).1 then 1 else 0)
            (nb + if (Mb.MatchBeginTag d.binary_decryptor b).1 then 1 else 0)
            (by simp only []; split_ifs <;> omega) (by simp only []; split_ifs <;> omega) hrun
          simpa only [subRun] using this
        · rw [MatchBeginTag_of_full Mp Mb d b h hidx] at hrun
          exact absurd hrun (by simp)
      · have hfalse : ((Mb.MatchBeginTag d.binary_decryptor b).1 ||
            (Mp.MatchBeginTag d.pg_decryptor b).1) = false := by
          simpa using h
        have h1 : (Mb.MatchBeginTag d.binary_decryptor b).1 = false :=
          (Bool.or_eq_false_iff.mp hfalse).1
        have h2 : (Mp.MatchBeginTag d.pg_decryptor b).1 = false :=
          (Bool.or_eq_false_iff.mp hfalse).2
        rw [MatchBeginTag_of_rejected Mp Mb d b hfalse] at hrun
        have := ih
          { d with pg_decryptor := (Mp.MatchBeginTag d.pg_decryptor b).2
                   binary_decryptor := (Mb.MatchBeginTag d.binary_decryptor b).2 }
          d' np nb hp hb hrun
        simpa only [subRun, h1, h2, Bool.false_eq_true, if_false, Nat.add_zero] using this
    | IsMatched =>
      simp only [runCalls] at hrun
      have hfr := IsMatched_keeps Mp Mb d
      have := ih _ d' np nb (by rw [hfr.1]; exact hp) (by rw [hfr.1]; exact hb) hrun
      rw [hfr.2.1, hfr.2.2] at this
      simpa only [subRun] using this
    | Reset =>
      simp only [runCalls] at hrun
      have := ih _ d' 0 0 (Nat.zero_le _) (Nat.zero_le _) hrun
      simpa only [subRun] using this

/-- The test double `tagMatcher tag` has taken at most as many marker bytes as
it accepted since its last reset. -/
theorem tagMatcher_subRun (tag : List Byte) (cs : List Call) :
    ∀ i n : Nat, i ≤ n →
      (subRun (tagMatcher tag) i n cs).1 ≤ (subRun (tagMatcher tag) i n cs).2 := by
  induction cs with
  | nil => intro i n h; exact h
  | cons c cs ih =>
    intro i n h
    cases c with
    | MatchBeginTag b =>
      by_cases hb : tag[i]? = some b
      · have hstep : (tagMatcher tag).MatchBeginTag i b = (true, i + 1) := by
          simp [tagMatcher, hb]
        simp only [subRun, hstep, if_true]
        exact ih (i + 1) (n + 1) (by omega)
      · have hstep : (tagMatcher tag).MatchBeginTag i b = (false, i) := by
          simp [tagMatcher, hb]
        simp only [subRun, hstep, Bool.false_eq_true, if_false, Nat.add_zero]
        exact ih i n h
    | IsMatched => simp only [subRun]; exact ih i n h
    | Reset =>
      have hreset : (tagMatcher tag).Reset i = 0 := rfl
      simp only [subRun, hreset]
      exact ih 0 0 (Nat.le_refl 0)

/-- C15. The spurious count is never negative.  Let both sub-matchers keep
the contract that, along any sequence of calls, `GetMatched()` is no longer
than the number of bytes the sub-matcher accepted since its last reset.  Then
in every state reached from a fresh decryptor by `MatchBeginTag`, `IsMatched`
and `Reset` calls in which a winner is selected,
`match_index - len(winner.GetMatched()) ≥ 0`. -/
theorem spurious_nonneg (Mp : DataDecryptor σp ρ) (Mb : DataDecryptor σb ρ)
    (ESCAPE_TAG_BEGIN TAG_BEGIN : List Byte) (NewBinaryDecryptor : σb) (client_id : GoBytes)
    (decryptor : σp)
    (hp : ∀ cs, (Mp.GetMatched (subRun Mp decryptor 0 cs).1).length
      ≤ (subRun Mp decryptor 0 cs).2)
    (hb : ∀ cs, (Mb.GetMatched (subRun Mb NewBinaryDecryptor 0 cs).1).length
      ≤ (subRun Mb NewBinaryDecryptor 0 cs).2)
    (cs : List Call) (d : PgDecryptor σp σb κ ζ) (m : Matcher)
    (hrun : runCalls Mp Mb (NewPgDecryptor ESCAPE_TAG_BEGIN TAG_BEGIN NewBinaryDecryptor
      client_id decryptor) cs = some d)
    (hsel : d.matched_decryptor = some m) :
    (0 : Int) ≤ (d.match_index : Int) - ((matchedGetMatched Mp Mb d m).length : Int) := by
  have _ := hsel
  obtain ⟨h1, h2, h3, h4⟩ := runCalls_counts Mp Mb cs
    (NewPgDecryptor ESCAPE_TAG_BEGIN TAG_BEGIN NewBinaryDecryptor client_id decryptor :
      PgDecryptor σp σb κ ζ) d 0 0 (Nat.zero_le _) (Nat.zero_le _) hrun
  have hp' := hp cs
  have hb' := hb cs
  simp only [NewPgDecryptor] at h1 h2 h3 h4
  cases m with
  | binary =>
    simp only [matchedGetMatched, h2]
    omega
  | pg =>
    simp only [matchedGetMatched, h1]
    omega

/-- Witness of C15: a fresh decryptor over the marker automata for `EB` and
`BX` is fed `B`, `E`, `B` and asked `IsMatched`; the escaped sub-matcher wins
with two bytes while three are buffered. -/
theorem spurious_nonneg_witness :
    (0 : Int) ≤ (({ spuriousState with key_store := none } : TestDecryptor).match_index : Int)
      - ((matchedGetMatched (tagMatcher [69, 66]) (tagMatcher [66, 88])
          ({ spuriousState with key_store := none } : TestDecryptor) Matcher.pg).length : Int) :=
  spurious_nonneg (tagMatcher [69, 66]) (tagMatcher [66, 88]) [69, 66] [66, 88] 0 (some [1]) 0
    (fun cs => le_trans (by simp [tagMatcher])
      (tagMatcher_subRun [69, 66] cs 0 0 (Nat.le_refl 0)))
    (fun cs => le_trans (by simp [tagMatcher])
      (tagMatcher_subRun [66, 88] cs 0 0 (Nat.le_refl 0)))
    [Call.MatchBeginTag 66, Call.MatchBeginTag 69, Call.MatchBeginTag 66, Call.IsMatched]
    { spuriousState with key_store := none } Matcher.pg rfl rfl

/-- C16, the code at the failing input.  In `spuriousState` three bytes
`B`, `E`, `B` are buffered and one of them is spurious.  The winner decrypts to
the two bytes `[5, 6]`; `ReadData` returns `B` followed by them, built in place
over `match_buffer`, and afterwards `match_index` is still 3 but `GetMatched`
is `[66, 5, 6]` instead of `[66, 69, 66]`. -/
theorem ReadData_overwrites_match_buffer :
    GetMatched spuriousState = some [66, 69, 66] ∧
    ∃ o, ReadData (tagMatcher [69, 66]) (tagMatcher [66, 88]) spuriousState [] none [5, 6]
        = some o ∧
      o.1 = ([66, 5, 6], none) ∧
      o.2.1.match_index = spuriousState.match_index ∧
      GetMatched o.2.1 = some [66, 5, 6] ∧
      GetMatched o.2.1 ≠ GetMatched spuriousState :=
  ⟨rfl, _, rfl, rfl, rfl, rfl, by decide⟩

/-- What `ReadData` does to the match buffer in a resolved state: `match_index`
is kept; `match_buffer` is kept when nothing is put in front of the data or when
the result does not fit the capacity, and otherwise the decrypted bytes are
written over it from the index `match_index - w` on, `w` being the winner's
matched length. -/
theorem ReadData_buffer_effect (Mp : DataDecryptor σp ρ) (Mb : DataDecryptor σb ρ)
    (d : PgDecryptor σp σb κ ζ) (m : Matcher) (key : List Byte) (zone : GoBytes) (reader : ρ)
    (hres : d.matched_decryptor = some m)
    (hcap : d.match_index - (matchedGetMatched Mp Mb d m).length ≤ d.match_buffer.length) :
    ∃ o, ReadData Mp Mb d key zone reader = some o ∧
      o.2.1.match_index = d.match_index ∧
      o.2.1.match_buffer =
        if (matchedGetMatched Mp Mb d m).length < d.match_index ∧
            d.match_index - (matchedGetMatched Mp Mb d m).length
              + (matchedReadData Mp Mb d m key zone reader).1.1.length ≤ d.match_buffer.length
        then
          d.match_buffer.take (d.match_index - (matchedGetMatched Mp Mb d m).length)
            ++ (matchedReadData Mp Mb d m key zone reader).1.1
            ++ d.match_buffer.drop (d.match_index - (matchedGetMatched Mp Mb d m).length
                + (matchedReadData Mp Mb d m key zone reader).1.1.length)
        else d.match_buffer := by
  have hbuf := (matchedReadData_buffer Mp Mb d m key zone reader).1
  have hidx := (matchedReadData_buffer Mp Mb d m key zone reader).2
  unfold ReadData
  rw [hres]
  by_cases hk : ((d.match_index : Int) - ((matchedGetMatched Mp Mb d m).length : Int)) > 0
  · have htn : ((d.match_index : Int) - ((matchedGetMatched Mp Mb d m).length : Int)).toNat
        = d.match_index - (matchedGetMatched Mp Mb d m).length := by omega
    have hlt : (matchedGetMatched Mp Mb d m).length < d.match_index := by omega
    simp only [hk, if_true, htn, hbuf, appendToSlice, hcap, hlt, true_and]
    split_ifs
    · exact ⟨_, rfl, hidx, rfl⟩
    · exact ⟨_, rfl, hidx, rfl⟩
  · have hlt : ¬ (matchedGetMatched Mp Mb d m).length < d.match_index := by omega
    simp only [hk, if_false, hlt, false_and]
    exact ⟨_, rfl, hidx, hbuf⟩

end Theorems

end Acra
